import Mathlib

/-!
Verification development for the ARMv7-A address-environment region manager
(`arch/arm/src/armv7-a/arm_addrenv_utils.c`): a shallow embedding of
`arm_addrenv_create_region` and `arm_addrenv_destroy_region`, together with
proofs of the documented properties of region construction and destruction.

Machine integers are modelled as `Nat` with explicit `% 2^32` where 32-bit
overflow can change behaviour (the capacity check on `listlen`, the signed
loop counter of the destructor).  The physical page allocator (`mm_pgalloc`)
is modelled as a stream `supply : Nat -> Nat` consumed at an allocation
counter; a grant of `0` is the exhaustion sentinel.  Physical memory holding
L2 tables is a map from physical page address to the list of its 256 word
entries.  Each externally visible action (allocation, publication of a slot,
critical-section entry/exit, table zeroing, entry write, cache flush, page
free) is recorded as an event so that ordering properties can be stated.
-/

/-- Page size in bytes (`MM_PGSIZE`).  Modelled from the spec: the Physical
Page Source deals in fixed-size 4 KiB page frames. -/
def MM_PGSIZE : Nat := 4096

/-- log2 of the page size (`MM_PGSHIFT`).  Modelled from the spec: pages are
4 KiB, so the shift is 12. -/
def MM_PGSHIFT : Nat := 12

/-- Number of entries of one L2 (coarse) page table (`ENTRIES_PER_L2TABLE`).
Modelled from the spec: one leaf table covers one 1 MiB section, i.e.
`ENTRIES_PER_L2TABLE` = 2^20 / 2^12 = 256 pages. -/
def ENTRIES_PER_L2TABLE : Nat := 256

/-- Size in bytes of the virtual span of one leaf table (`SECTION_SIZE`).
Modelled from the spec: one section is 1 MiB. -/
def SECTION_SIZE : Nat := 1048576

/-- Physical address mask of a small-page L2 descriptor
(`PTE_SMALL_PADDR_MASK` = 0xfffff000): the entry with its low 12 flag bits
masked out. -/
def PTE_SMALL_PADDR_MASK : Nat := 4294963200

/-- One past the largest `uint32_t` / 32-bit `size_t` value. -/
def U32 : Nat := 4294967296

/-- `errno` value `E2BIG` (capacity error). -/
def E2BIG : Nat := 7

/-- `errno` value `ENOMEM` (out of memory). -/
def ENOMEM : Nat := 12

/-- `MM_NPAGES`: number of pages needed to hold `size` bytes.  Modelled from
the spec: the requested page count is `ceil(regionsize / pagesize)`. -/
def MM_NPAGES (size : Nat) : Nat := (size + MM_PGSIZE - 1) / MM_PGSIZE

/-- Number of leaf tables `create_region` walks:
`nlist = (npages + ENTRIES_PER_L2TABLE - 1) / ENTRIES_PER_L2TABLE`. -/
def NLIST (regionsize : Nat) : Nat :=
  (MM_NPAGES regionsize + ENTRIES_PER_L2TABLE - 1) / ENTRIES_PER_L2TABLE

/-- Index of the L2 entry covering virtual address `vaddr`:
`(vaddr & 0x000fffff) >> 12`. -/
def l2_index (vaddr : Nat) : Nat := (vaddr % SECTION_SIZE) / MM_PGSIZE

/-- Encoding of one L2 small-page descriptor.  Modelled from the spec: the
Table Entry Codec turns a physical address and flag bits into one entry;
the store truncates the address to `uint32_t`, as `set_l2_entry` does with
`(uint32_t)paddr | mmuflags`. -/
def l2_encode (paddr mmuflags : Nat) : Nat := (paddr % U32) ||| mmuflags

/-- Decoding of one L2 descriptor back to a physical address, as the
destructor does with `paddr &= PTE_SMALL_PADDR_MASK`. -/
def l2_decode (entry : Nat) : Nat := entry &&& PTE_SMALL_PADDR_MASK

/-- `set_l2_entry l2table paddr vaddr mmuflags`.  Modelled from the spec:
the Leaf Table Builder encodes each newly granted page into the entry at
the current virtual offset. -/
def set_l2_entry (l2table : List Nat) (paddr vaddr mmuflags : Nat) :
    List Nat :=
  l2table.set (l2_index vaddr) (l2_encode paddr mmuflags)

/-- Externally visible actions of the two entry points, in program order. -/
inductive Ev where
  /-- `mm_pgalloc(1)` for an L2 table returned `paddr` (0 = exhausted). -/
  | allocTable (paddr : Nat)
  /-- `list[i] = paddr`. -/
  | publish (i : Nat) (paddr : Nat)
  /-- `enter_critical_section()`. -/
  | enterCS
  /-- `memset(l2table, 0, ENTRIES_PER_L2TABLE * sizeof(uint32_t))`. -/
  | zeroTable (paddr : Nat)
  /-- `mm_pgalloc(1)` for region data returned `paddr` (0 = exhausted). -/
  | allocPage (paddr : Nat)
  /-- `set_l2_entry`: entry `entry` written at index `idx` of table `tbl`. -/
  | setEntry (tbl : Nat) (idx : Nat) (entry : Nat)
  /-- `up_flush_dcache` over table `paddr`. -/
  | flush (paddr : Nat)
  /-- `leave_critical_section(flags)`. -/
  | leaveCS
  /-- `mm_pgfree(paddr, 1)`. -/
  | free (paddr : Nat)
  deriving DecidableEq, Repr

/-- Machine state threaded through the two entry points: the caller-owned
table list (0 = `NULL` slot), physical memory as table contents per page
address, and the allocator position in the grant stream. -/
structure St where
  list : List Nat
  mem : Nat → List Nat
  acnt : Nat

/-- Inner loop of `arm_addrenv_create_region`
(`for (j = 0; j < ENTRIES_PER_L2TABLE && nmapped < regionsize; j++)`):
grants one data page per entry and encodes it into the table at the index
of the running virtual address.  Arguments after the table's physical
address `tp`: remaining entry count, table contents, `vaddr`, `nmapped`,
allocation counter.  Returns the table, final `vaddr`, `nmapped`, counter,
the events of the loop body, and `false` exactly when `mm_pgalloc`
returned 0 (the `-ENOMEM` early return).  (`nmapped` is a 32-bit `size_t`
in the source; for `regionsize < 2^32` it cannot wrap before the loop
exits, because `nmapped` stays a multiple of the page size bounded by the
table capacity, so it is carried as a plain `Nat`.) -/
def fillLoop (supply : Nat → Nat) (regionsize mmuflags tp : Nat) :
    Nat → List Nat → Nat → Nat → Nat →
    (List Nat × Nat × Nat × Nat × List Ev × Bool)
  | 0, tbl, v, n, ac => (tbl, v, n, ac, [], true)
  | j + 1, tbl, v, n, ac =>
    if n < regionsize then
      let p := supply ac
      if p = 0 then
        (tbl, v, n, ac + 1, [Ev.allocPage 0], false)
      else
        let tbl' := set_l2_entry tbl p v mmuflags
        let r := fillLoop supply regionsize mmuflags tp j tbl'
                   (v + MM_PGSIZE) (n + MM_PGSIZE) (ac + 1)
        (r.1, r.2.1, r.2.2.1, r.2.2.2.1,
          Ev.allocPage p ::
            Ev.setEntry tp (l2_index v) (l2_encode p mmuflags) :: r.2.2.2.2.1,
          r.2.2.2.2.2)
    else
      (tbl, v, n, ac, [], true)

/-- Outer loop of `arm_addrenv_create_region` (`for (i = 0; i < nlist; i++)`):
allocates the L2 table page, publishes it into `list[i]`, then inside the
critical section zero-fills and populates the table, flushes it, and moves
to the next slot.  Arguments: remaining slot count, slot index `i`,
`vaddr`, `nmapped`, state.  Returns `false` exactly on an `-ENOMEM` early
return. -/
def buildLoop (supply : Nat → Nat) (regionsize mmuflags : Nat) :
    Nat → Nat → Nat → Nat → St → (Bool × St × List Ev)
  | 0, _, _, _, st => (true, st, [])
  | r + 1, i, v, n, st =>
    let tp := supply st.acnt
    let st1 : St := ⟨st.list, st.mem, st.acnt + 1⟩
    if tp = 0 then
      (false, st1, [Ev.allocTable 0])
    else
      let st2 : St := ⟨st1.list.set i tp, st1.mem, st1.acnt⟩
      let f := fillLoop supply regionsize mmuflags tp ENTRIES_PER_L2TABLE
                 (List.replicate ENTRIES_PER_L2TABLE 0) v n st2.acnt
      let st3 : St := ⟨st2.list, Function.update st2.mem tp f.1, f.2.2.2.1⟩
      if f.2.2.2.2.2 then
        let b := buildLoop supply regionsize mmuflags r (i + 1) f.2.1
                   f.2.2.1 st3
        (b.1, b.2.1,
          Ev.allocTable tp :: Ev.publish i tp :: Ev.enterCS ::
            Ev.zeroTable tp :: f.2.2.2.2.1 ++
            [Ev.flush tp, Ev.leaveCS] ++ b.2.2)
      else
        (false, st3,
          Ev.allocTable tp :: Ev.publish i tp :: Ev.enterCS ::
            Ev.zeroTable tp :: f.2.2.2.2.1 ++ [Ev.leaveCS])

/-- `arm_addrenv_create_region(list, listlen, vaddr, regionsize, mmuflags)`.
Returns the result (`npages` on success, `-E2BIG` or `-ENOMEM` on
failure), the final state, and the event trace.  The capacity check
compares `npages` against `listlen << (20 - MM_PGSHIFT)` computed in
32-bit `unsigned int` arithmetic, hence the `% U32`. -/
def arm_addrenv_create_region (supply : Nat → Nat) (st : St)
    (listlen vaddr regionsize mmuflags : Nat) : Int × St × List Ev :=
  let npages := MM_NPAGES regionsize
  if npages > (listlen <<< (20 - MM_PGSHIFT)) % U32 then
    (-(E2BIG : Int), st, [])
  else
    let b := buildLoop supply regionsize mmuflags (NLIST regionsize) 0
               vaddr 0 st
    (if b.1 then (npages : Int) else -(ENOMEM : Int), b.2.1, b.2.2)

/-- Physical addresses freed by the destructor's entry scan of one table
(`for (j = 0; j < ENTRIES_PER_L2TABLE; j++)`): each non-zero entry, masked
with `PTE_SMALL_PADDR_MASK`, in index order. -/
def scanFrees (tbl : List Nat) : List Nat :=
  (List.range ENTRIES_PER_L2TABLE).filterMap fun j =>
    let e := tbl.getD j 0
    if e = 0 then none else some (l2_decode e)

/-- Loop of `arm_addrenv_destroy_region`
(`for (i = 0; i < listlen; vaddr += SECTION_SIZE, i++)`).  The source keeps
the counter in a signed `int` compared against the `unsigned int`
`listlen`; the usual arithmetic conversions compare the counter's value
modulo 2^32, and increment past `INT_MAX` wraps on this target, so the
counter is carried as its unsigned image `w` with step `(w + 1) % U32` and
guard `w % U32 < listlen`.  `fuel` bounds the simulated iteration count;
the final `Bool` is `true` iff the loop has exited through its guard
within `fuel` iterations.  Returns the table list, events, and the list of
visited slot indices. -/
def destroyLoop (keep : Bool) (listlen : Nat) (mem : Nat → List Nat) :
    Nat → Nat → Nat → List Nat → (List Nat × List Ev × List Nat × Bool)
  | 0, w, _, lst => (lst, [], [], !(w % U32 < listlen : Bool))
  | fuel + 1, w, v, lst =>
    if w % U32 < listlen then
      let i := w % U32
      let p := lst.getD i 0
      if p = 0 then
        let r := destroyLoop keep listlen mem fuel ((w + 1) % U32)
                   (v + SECTION_SIZE) lst
        (r.1, r.2.1, i :: r.2.2.1, r.2.2.2)
      else
        let evs0 := if keep then [Ev.enterCS, Ev.leaveCS]
          else Ev.enterCS :: ((scanFrees (mem p)).map Ev.free) ++ [Ev.leaveCS]
        let r := destroyLoop keep listlen mem fuel ((w + 1) % U32)
                   (v + SECTION_SIZE) (lst.set i 0)
        (r.1, evs0 ++ Ev.free p :: r.2.1, i :: r.2.2.1, r.2.2.2)
    else
      (lst, [], [], true)

/-- `arm_addrenv_destroy_region(list, listlen, vaddr, keep)`.  Returns the
final state, the event trace, and the visited slot indices.  The loop can
run at most `listlen` iterations before its guard fails, so `listlen` fuel
is exact whenever `listlen < 2^32` (the range of its `unsigned int`
type). -/
def arm_addrenv_destroy_region (st : St) (listlen vaddr : Nat)
    (keep : Bool) : St × List Ev × List Nat :=
  let r := destroyLoop keep listlen st.mem listlen 0 vaddr st.list
  (⟨r.1, st.mem, st.acnt⟩, r.2.1, r.2.2.1)

/-- The non-zero table-page grants of a trace, in order. -/
def grantedTables (evs : List Ev) : List Nat :=
  evs.filterMap fun e => match e with
    | Ev.allocTable p => if p = 0 then none else some p
    | _ => none

/-- The non-zero data-page grants of a trace, in order. -/
def grantedData (evs : List Ev) : List Nat :=
  evs.filterMap fun e => match e with
    | Ev.allocPage p => if p = 0 then none else some p
    | _ => none

/-- All non-zero page grants of a trace (tables and data), in order. -/
def allGrants (evs : List Ev) : List Nat :=
  evs.filterMap fun e => match e with
    | Ev.allocTable p => if p = 0 then none else some p
    | Ev.allocPage p => if p = 0 then none else some p
    | _ => none

/-- The pages passed to `mm_pgfree` in a trace, in order. -/
def freedPages (evs : List Ev) : List Nat :=
  evs.filterMap fun e => match e with
    | Ev.free p => some p
    | _ => none

/-- Events that may appear between the zero-fill and the flush of one leaf
table `p`: data-page allocations and entry writes into `p`. -/
def isEntryEv (p : Nat) : Ev → Bool
  | Ev.allocPage _ => true
  | Ev.setEntry q _ _ => q == p
  | _ => false

/-- Shape of the events of one iteration of the constructor's outer loop:
either the table allocation failed outright, or the slot is published
immediately after the table page is granted, and the zero-fill, entry
writes and (except on the mid-table out-of-memory abort) the cache flush
all happen after publication, inside the critical section. -/
def BlockOk (b : List Ev) : Prop :=
  b = [Ev.allocTable 0] ∨
  ∃ p i fevs, p ≠ 0 ∧ (∀ e ∈ fevs, isEntryEv p e = true) ∧
    (b = Ev.allocTable p :: Ev.publish i p :: Ev.enterCS :: Ev.zeroTable p ::
        fevs ++ [Ev.flush p, Ev.leaveCS] ∨
     b = Ev.allocTable p :: Ev.publish i p :: Ev.enterCS :: Ev.zeroTable p ::
        fevs ++ [Ev.leaveCS])

example :
    (arm_addrenv_create_region (fun n => 4096 * (n + 1)) ⟨[0], fun _ => [], 0⟩
      1 0 4096 2).2.2 =
    [Ev.allocTable 4096, Ev.publish 0 4096, Ev.enterCS, Ev.zeroTable 4096,
     Ev.allocPage 8192, Ev.setEntry 4096 0 8194, Ev.flush 4096,
     Ev.leaveCS] := by decide

theorem getD_set_ne (l : List Nat) (i j a : Nat) (h : i ≠ j) :
    (l.set i a).getD j 0 = l.getD j 0 := by
  simp [List.getD_eq_getElem?_getD, List.getElem?_set_ne h]

theorem getD_set_self (l : List Nat) (i a : Nat) (h : i < l.length) :
    (l.set i a).getD i 0 = a := by
  simp [List.getD_eq_getElem?_getD, List.getElem?_set_self h]

theorem grantedTables_append (a b : List Ev) :
    grantedTables (a ++ b) = grantedTables a ++ grantedTables b := by
  simp [grantedTables, List.filterMap_append]

theorem grantedData_append (a b : List Ev) :
    grantedData (a ++ b) = grantedData a ++ grantedData b := by
  simp [grantedData, List.filterMap_append]

theorem allGrants_append (a b : List Ev) :
    allGrants (a ++ b) = allGrants a ++ allGrants b := by
  simp [allGrants, List.filterMap_append]

theorem freedPages_append (a b : List Ev) :
    freedPages (a ++ b) = freedPages a ++ freedPages b := by
  simp [freedPages, List.filterMap_append]

theorem l2_decode_l2_encode (p f : Nat) (hal : p % MM_PGSIZE = 0)
    (hp32 : p < U32) (hf : f < MM_PGSIZE) :
    l2_decode (l2_encode p f) = p := by
  have hU : p % U32 = p := Nat.mod_eq_of_lt hp32
  have hmask : PTE_SMALL_PADDR_MASK = (2 ^ 20 - 1) <<< 12 := by decide
  unfold l2_decode l2_encode
  rw [hU, hmask]
  apply Nat.eq_of_testBit_eq
  intro i
  rw [Nat.testBit_and, Nat.testBit_or, Nat.testBit_shiftLeft,
    Nat.testBit_two_pow_sub_one]
  have hplow : ∀ k, k < 12 → p.testBit k = false := by
    intro k hk
    have h1 : p % 2 ^ 12 = 0 := by
      have h12 : MM_PGSIZE = 2 ^ 12 := by decide
      rw [← h12]; exact hal
    have h2 := (Nat.testBit_mod_two_pow p 12 k).symm
    rw [h1] at h2
    simpa [Nat.zero_testBit, hk] using h2
  rcases Nat.lt_or_ge i 12 with h12 | h12
  · have hnot : ¬ (12 ≤ i) := by omega
    simp [hplow i h12, hnot]
  · have hfb : f.testBit i = false := by
      apply Nat.testBit_lt_two_pow
      calc f < MM_PGSIZE := hf
        _ = 2 ^ 12 := by decide
        _ ≤ 2 ^ i := Nat.pow_le_pow_right (by omega) h12
    rcases Nat.lt_or_ge i 32 with h32 | h32
    · have h20 : i - 12 < 20 := by omega
      simp [hfb, h12, h20]
    · have hpb : p.testBit i = false := by
        apply Nat.testBit_lt_two_pow
        calc p < U32 := hp32
          _ = 2 ^ 32 := by decide
          _ ≤ 2 ^ i := Nat.pow_le_pow_right (by omega) h32
      have h20 : ¬ (i - 12 < 20) := by omega
      simp [hfb, hpb, h20]

/-- C7: the table-entry codec round-trips: masking the entry produced by
encoding a page-aligned 32-bit physical address `p` with a valid flag set
`f` (flag bits confined to the low 12 bits masked out by
`PTE_SMALL_PADDR_MASK`) recovers exactly `p`.  Encoding is a pure Lean
function, so it has no side effects. -/
theorem c7_codec_roundtrip (p f : Nat) (hal : p % MM_PGSIZE = 0)
    (hp32 : p < U32) (hf : f < MM_PGSIZE) :
    l2_decode (l2_encode p f) = p :=
  l2_decode_l2_encode p f hal hp32 hf

theorem c7_codec_roundtrip_witness :
    4096 % MM_PGSIZE = 0 ∧ 4096 < U32 ∧ 34 < MM_PGSIZE ∧
    l2_decode (l2_encode 4096 34) = 4096 :=
  ⟨by decide, by decide, by decide,
    c7_codec_roundtrip 4096 34 (by decide) (by decide) (by decide)⟩

/-- C2: whenever the requested page count `ceil(regionsize / pagesize)`
exceeds the page capacity `listlen * ENTRIES_PER_L2TABLE` of the table
list, `create_region` returns `-E2BIG`, performs no allocation (empty
event trace) and leaves the state, in particular every table-list slot,
unchanged. -/
theorem c2_capacity_error (supply : Nat → Nat) (st : St)
    (listlen vaddr regionsize mmuflags : Nat)
    (h : listlen * ENTRIES_PER_L2TABLE < MM_NPAGES regionsize) :
    arm_addrenv_create_region supply st listlen vaddr regionsize mmuflags =
      (-(E2BIG : Int), st, []) := by
  have hle : (listlen <<< (20 - MM_PGSHIFT)) % U32 ≤
      listlen * ENTRIES_PER_L2TABLE := by
    calc (listlen <<< (20 - MM_PGSHIFT)) % U32
        ≤ listlen <<< (20 - MM_PGSHIFT) := Nat.mod_le _ _
      _ = listlen * ENTRIES_PER_L2TABLE := by
          rw [Nat.shiftLeft_eq]; norm_num [MM_PGSHIFT, ENTRIES_PER_L2TABLE]
  have hgt : MM_NPAGES regionsize > (listlen <<< (20 - MM_PGSHIFT)) % U32 :=
    lt_of_le_of_lt hle h
  simp [arm_addrenv_create_region, hgt]

theorem c2_capacity_error_witness :
    1 * ENTRIES_PER_L2TABLE < MM_NPAGES 1052672 ∧
    arm_addrenv_create_region (fun _ => 0) ⟨[0], fun _ => [], 0⟩
      1 0 1052672 0 = (-(E2BIG : Int), ⟨[0], fun _ => [], 0⟩, []) :=
  ⟨by decide,
    c2_capacity_error (fun _ => 0) ⟨[0], fun _ => [], 0⟩ 1 0 1052672 0
      (by decide)⟩

/-- C1 counterexample: on a one-page region with an unexhausted page
source, the trace of `create_region` begins with the table allocation and
the write of the table's address into `table_list[0]`, and only afterwards
(strictly later in the trace) does it contain the entry population and
the cache flush of that table.  The table's address is therefore published
before the table is populated and flushed, contradicting the claimed
ordering. -/
theorem c1_counterexample :
    ((arm_addrenv_create_region (fun n => 4096 * (n + 1))
        ⟨[0], fun _ => [], 0⟩ 1 0 4096 2).2.2.take 2 =
      [Ev.allocTable 4096, Ev.publish 0 4096]) ∧
    Ev.setEntry 4096 0 8194 ∈ (arm_addrenv_create_region
        (fun n => 4096 * (n + 1)) ⟨[0], fun _ => [], 0⟩ 1 0 4096 2).2.2.drop 2 ∧
    Ev.flush 4096 ∈ (arm_addrenv_create_region
        (fun n => 4096 * (n + 1)) ⟨[0], fun _ => [], 0⟩ 1 0 4096 2).2.2.drop 2 := by
  decide

theorem destroyLoop_vaddr_indep (keep : Bool) (listlen : Nat)
    (mem : Nat → List Nat) :
    ∀ fuel w v1 v2 lst,
      destroyLoop keep listlen mem fuel w v1 lst =
      destroyLoop keep listlen mem fuel w v2 lst := by
  intro fuel
  induction fuel with
  | zero => intro w v1 v2 lst; rfl
  | succ n ih =>
    intro w v1 v2 lst
    simp only [destroyLoop]
    by_cases h : w % U32 < listlen
    · simp only [if_pos h]
      by_cases hp : lst.getD (w % U32) 0 = 0
      · simp only [if_pos hp]
        rw [ih ((w + 1) % U32) (v1 + SECTION_SIZE) (v2 + SECTION_SIZE) lst]
      · simp only [if_neg hp]
        rw [ih ((w + 1) % U32) (v1 + SECTION_SIZE) (v2 + SECTION_SIZE)
          (lst.set (w % U32) 0)]
    · simp only [if_neg h]

/-- C10: the observable effect of `destroy_region` — the final state, the
full event trace (hence which pages are freed and in what order), and the
slots visited — does not depend on the `vaddr` argument: the loop only
advances `vaddr` and never reads it. -/
theorem c10_destroy_vaddr_independent (st : St) (listlen v1 v2 : Nat)
    (keep : Bool) :
    arm_addrenv_destroy_region st listlen v1 keep =
    arm_addrenv_destroy_region st listlen v2 keep := by
  unfold arm_addrenv_destroy_region
  rw [destroyLoop_vaddr_indep keep listlen st.mem listlen 0 v1 v2 st.list]

theorem fillLoop_noTables (supply : Nat → Nat) (regionsize mmuflags tp : Nat) :
    ∀ j tbl v n ac,
      grantedTables
        (fillLoop supply regionsize mmuflags tp j tbl v n ac).2.2.2.2.1 = [] := by
  intro j
  induction j with
  | zero => intro tbl v n ac; rfl
  | succ j ih =>
    intro tbl v n ac
    simp only [fillLoop]
    by_cases hn : n < regionsize
    · simp only [if_pos hn]
      by_cases hp : supply ac = 0
      · simp [hp, grantedTables]
      · simp only [if_neg hp]
        simpa [grantedTables, List.filterMap_cons] using
          ih (set_l2_entry tbl (supply ac) v mmuflags) (v + MM_PGSIZE)
            (n + MM_PGSIZE) (ac + 1)
    · simp [if_neg hn, grantedTables]

theorem grantedTables_block (tp i : Nat) (fevs : List Ev) (htp : tp ≠ 0)
    (hnt : grantedTables fevs = []) :
    grantedTables (Ev.allocTable tp :: Ev.publish i tp :: Ev.enterCS ::
      Ev.zeroTable tp :: fevs) = [tp] := by
  have hnt' : List.filterMap (fun e => match e with
      | Ev.allocTable p => if p = 0 then none else some p
      | _ => none) fevs = [] := hnt
  simp only [grantedTables, List.filterMap_cons, if_neg htp]
  rw [hnt']

theorem buildLoop_frame (supply : Nat → Nat) (regionsize mmuflags : Nat) :
    ∀ r i v n st,
      (grantedTables
        (buildLoop supply regionsize mmuflags r i v n st).2.2).length ≤ r ∧
      ∀ m, (m < i ∨
          i + (grantedTables
            (buildLoop supply regionsize mmuflags r i v n st).2.2).length ≤ m) →
        (buildLoop supply regionsize mmuflags r i v n st).2.1.list.getD m 0 =
          st.list.getD m 0 := by
  intro r
  induction r with
  | zero =>
    intro i v n st
    exact ⟨Nat.le_refl 0, fun m _ => rfl⟩
  | succ r ih =>
    intro i v n st
    simp only [buildLoop]
    by_cases htp : supply st.acnt = 0
    · simp only [if_pos htp]
      constructor
      · simp [grantedTables]
      · intro m _
        trivial
    · simp only [if_neg htp]
      have hnt := fillLoop_noTables supply regionsize mmuflags
        (supply st.acnt) ENTRIES_PER_L2TABLE
        (List.replicate ENTRIES_PER_L2TABLE 0) v n (st.acnt + 1)
      generalize hF : fillLoop supply regionsize mmuflags (supply st.acnt)
        ENTRIES_PER_L2TABLE (List.replicate ENTRIES_PER_L2TABLE 0) v n
        (st.acnt + 1) = F
      rw [hF] at hnt
      by_cases hok : F.2.2.2.2.2 = true
      · rw [if_pos hok]
        obtain ⟨hlen, hframe⟩ := ih (i + 1) F.2.1 F.2.2.1
          ⟨st.list.set i (supply st.acnt),
            Function.update st.mem (supply st.acnt) F.1, F.2.2.2.1⟩
        have hgt : grantedTables ((Ev.allocTable (supply st.acnt) ::
            Ev.publish i (supply st.acnt) :: Ev.enterCS ::
            Ev.zeroTable (supply st.acnt) :: F.2.2.2.2.1) ++
            [Ev.flush (supply st.acnt), Ev.leaveCS] ++
            (buildLoop supply regionsize mmuflags r (i + 1) F.2.1 F.2.2.1
              ⟨st.list.set i (supply st.acnt),
                Function.update st.mem (supply st.acnt) F.1,
                F.2.2.2.1⟩).2.2) =
            supply st.acnt ::
              grantedTables (buildLoop supply regionsize mmuflags r (i + 1)
                F.2.1 F.2.2.1 ⟨st.list.set i (supply st.acnt),
                  Function.update st.mem (supply st.acnt) F.1,
                  F.2.2.2.1⟩).2.2 := by
          rw [grantedTables_append, grantedTables_append,
            grantedTables_block (supply st.acnt) i F.2.2.2.2.1 htp hnt]
          simp [grantedTables]
        constructor
        · rw [hgt]
          simpa using Nat.succ_le_succ hlen
        · intro m hm
          rw [hgt] at hm
          have hm2 : m < i + 1 ∨
              (i + 1) + (grantedTables (buildLoop supply regionsize mmuflags
                r (i + 1) F.2.1 F.2.2.1 ⟨st.list.set i (supply st.acnt),
                  Function.update st.mem (supply st.acnt) F.1,
                  F.2.2.2.1⟩).2.2).length ≤ m := by
            rcases hm with h | h
            · exact Or.inl (by omega)
            · simp only [List.length_cons] at h
              exact Or.inr (by omega)
          have hne : i ≠ m := by
            rcases hm with h | h
            · omega
            · simp only [List.length_cons] at h; omega
          calc (buildLoop supply regionsize mmuflags r (i + 1) F.2.1 F.2.2.1
                ⟨st.list.set i (supply st.acnt),
                  Function.update st.mem (supply st.acnt) F.1,
                  F.2.2.2.1⟩).2.1.list.getD m 0
              = (st.list.set i (supply st.acnt)).getD m 0 := hframe m hm2
            _ = st.list.getD m 0 := getD_set_ne _ _ _ _ hne
      · rw [if_neg hok]
        have hgt : grantedTables ((Ev.allocTable (supply st.acnt) ::
            Ev.publish i (supply st.acnt) :: Ev.enterCS ::
            Ev.zeroTable (supply st.acnt) :: F.2.2.2.2.1) ++
            [Ev.leaveCS]) = [supply st.acnt] := by
          rw [grantedTables_append,
            grantedTables_block (supply st.acnt) i F.2.2.2.2.1 htp hnt]
          simp [grantedTables]
        constructor
        · rw [hgt]; simp
        · intro m hm
          rw [hgt] at hm
          have hne : i ≠ m := by
            rcases hm with h | h
            · omega
            · simp only [List.length_singleton] at h; omega
          exact getD_set_ne _ _ _ _ hne

/-- C9: `create_region` fills table-list slots left to right, one per
successfully allocated leaf table; the number of filled slots never
exceeds `nlist = ceil(npages / ENTRIES_PER_L2TABLE)`, and every slot at or
beyond the filled count — in particular every slot at index `nlist` or
beyond, and the slot whose own leaf-table allocation failed — is left
unchanged. -/
theorem c9_create_frame (supply : Nat → Nat) (st : St)
    (listlen vaddr regionsize mmuflags : Nat) :
    (grantedTables (arm_addrenv_create_region supply st listlen vaddr
      regionsize mmuflags).2.2).length ≤ NLIST regionsize ∧
    ∀ m, (grantedTables (arm_addrenv_create_region supply st listlen vaddr
        regionsize mmuflags).2.2).length ≤ m →
      (arm_addrenv_create_region supply st listlen vaddr regionsize
        mmuflags).2.1.list.getD m 0 = st.list.getD m 0 := by
  simp only [arm_addrenv_create_region]
  by_cases hc : MM_NPAGES regionsize > (listlen <<< (20 - MM_PGSHIFT)) % U32
  · rw [if_pos hc]
    exact ⟨Nat.zero_le _, fun m _ => rfl⟩
  · rw [if_neg hc]
    dsimp only
    obtain ⟨h1, h2⟩ := buildLoop_frame supply regionsize mmuflags
      (NLIST regionsize) 0 vaddr 0 st
    exact ⟨h1, fun m hm => h2 m (Or.inr (by omega))⟩

theorem div_lt_npages_iff (n regionsize : Nat) (hn : MM_PGSIZE ∣ n) :
    n < regionsize ↔ n / MM_PGSIZE < MM_NPAGES regionsize := by
  obtain ⟨m, rfl⟩ := hn
  simp only [MM_NPAGES, MM_PGSIZE] at *
  omega

theorem l2_index_add (v s : Nat) :
    l2_index (v + MM_PGSIZE * s) =
      (v / MM_PGSIZE + s) % ENTRIES_PER_L2TABLE := by
  simp only [l2_index, MM_PGSIZE, SECTION_SIZE, ENTRIES_PER_L2TABLE]
  omega

theorem l2_index_lt (v : Nat) : l2_index v < ENTRIES_PER_L2TABLE := by
  simp only [l2_index, MM_PGSIZE, SECTION_SIZE, ENTRIES_PER_L2TABLE]
  omega

theorem scanFrees_set (tbl : List Nat) (idx e : Nat)
    (hlen : tbl.length = ENTRIES_PER_L2TABLE)
    (hidx : idx < ENTRIES_PER_L2TABLE)
    (h0 : tbl.getD idx 0 = 0) (he : e ≠ 0) :
    List.Perm (scanFrees (tbl.set idx e))
      (scanFrees tbl ++ [l2_decode e]) := by
  unfold scanFrees
  have hsplit : List.range ENTRIES_PER_L2TABLE =
      List.range' 0 idx ++ (idx :: List.range' (idx + 1)
        (ENTRIES_PER_L2TABLE - idx - 1)) := by
    obtain ⟨k, hk⟩ : ∃ k, ENTRIES_PER_L2TABLE - idx = k + 1 :=
      ⟨ENTRIES_PER_L2TABLE - idx - 1, by omega⟩
    have hk2 : ENTRIES_PER_L2TABLE - idx - 1 = k := by omega
    rw [List.range_eq_range', hk2]
    have h1 : idx :: List.range' (idx + 1) k =
        List.range' (0 + idx) (k + 1) := by
      rw [List.range'_succ]
      simp
    rw [h1, List.range'_append_1]
    congr 1
    omega
  rw [hsplit]
  rw [List.filterMap_append, List.filterMap_append,
    List.filterMap_cons, List.filterMap_cons]
  have hlow : ∀ g ∈ List.range' 0 idx,
      (fun j => let q := (tbl.set idx e).getD j 0;
        if q = 0 then none else some (l2_decode q)) g =
      (fun j => let q := tbl.getD j 0;
        if q = 0 then none else some (l2_decode q)) g := by
    intro g hg
    have hg' : g < idx := by
      rcases List.mem_range'_1.1 hg with ⟨_, h⟩; omega
    simp only [getD_set_ne tbl idx g e (by omega)]
  have hhigh : ∀ g ∈ List.range' (idx + 1) (ENTRIES_PER_L2TABLE - idx - 1),
      (fun j => let q := (tbl.set idx e).getD j 0;
        if q = 0 then none else some (l2_decode q)) g =
      (fun j => let q := tbl.getD j 0;
        if q = 0 then none else some (l2_decode q)) g := by
    intro g hg
    have hg' : idx + 1 ≤ g := (List.mem_range'_1.1 hg).1
    simp only [getD_set_ne tbl idx g e (by omega)]
  rw [List.filterMap_congr hlow, List.filterMap_congr hhigh]
  have hset : (tbl.set idx e).getD idx 0 = e :=
    getD_set_self tbl idx e (by omega)
  simp only [hset, h0, if_neg he, if_pos rfl]
  rw [List.append_assoc]
  exact List.Perm.append_left _ ((List.perm_append_singleton _ _).symm)

theorem grantedData_cons_allocPage (p : Nat) (t : List Ev) (hp : p ≠ 0) :
    grantedData (Ev.allocPage p :: t) = p :: grantedData t := by
  simp [grantedData, List.filterMap_cons, hp]

theorem grantedData_cons_setEntry (a b c : Nat) (t : List Ev) :
    grantedData (Ev.setEntry a b c :: t) = grantedData t := by
  simp [grantedData, List.filterMap_cons]

theorem allGrants_cons_allocPage (p : Nat) (t : List Ev) (hp : p ≠ 0) :
    allGrants (Ev.allocPage p :: t) = p :: allGrants t := by
  simp [allGrants, List.filterMap_cons, hp]

theorem allGrants_cons_setEntry (a b c : Nat) (t : List Ev) :
    allGrants (Ev.setEntry a b c :: t) = allGrants t := by
  simp [allGrants, List.filterMap_cons]

theorem fillLoop_spec (supply : Nat → Nat) (regionsize mmuflags tp : Nat) :
    ∀ j tbl v n ac T V N AC EVS OK,
      MM_PGSIZE ∣ n →
      fillLoop supply regionsize mmuflags tp j tbl v n ac =
        (T, V, N, AC, EVS, OK) →
      ∃ s,
        grantedData EVS = (List.range' ac s).map supply ∧
        (∀ k, k < s → supply (ac + k) ≠ 0) ∧
        N = n + MM_PGSIZE * s ∧
        V = v + MM_PGSIZE * s ∧
        allGrants EVS = grantedData EVS ∧
        (∀ e ∈ EVS, isEntryEv tp e = true) ∧
        (OK = true →
          s = min j (MM_NPAGES regionsize - n / MM_PGSIZE) ∧ AC = ac + s) ∧
        ((OK = false → supply (ac + s) = 0 ∧ AC = ac + s + 1) ∧ s ≤ j) := by
  intro j
  induction j with
  | zero =>
    intro tbl v n ac T V N AC EVS OK _ hfe
    simp only [fillLoop, Prod.mk.injEq] at hfe
    obtain ⟨hT, hV, hN, hAC, hEVS, hOK⟩ := hfe
    refine ⟨0, ?_, ?_, ?_, ?_, ?_, ?_, ?_, ?_⟩
    · rw [← hEVS]; simp [grantedData]
    · intro k hk; exact absurd hk (Nat.not_lt_zero k)
    · omega
    · omega
    · rw [← hEVS]; rfl
    · rw [← hEVS]; intro e he; exact absurd he (List.not_mem_nil e)
    · intro _
      constructor
      · simp
      · omega
    · constructor
      · intro h
        rw [← hOK] at h
        simp at h
      · exact Nat.le_refl 0
  | succ j ih =>
    intro tbl v n ac T V N AC EVS OK hdvd hfe
    simp only [fillLoop] at hfe
    by_cases hn : n < regionsize
    · rw [if_pos hn] at hfe
      by_cases hp : supply ac = 0
      · rw [if_pos hp] at hfe
        simp only [Prod.mk.injEq] at hfe
        obtain ⟨hT, hV, hN, hAC, hEVS, hOK⟩ := hfe
        refine ⟨0, ?_, ?_, ?_, ?_, ?_, ?_, ?_, ?_⟩
        · rw [← hEVS]; simp [grantedData, List.filterMap_cons]
        · intro k hk; exact absurd hk (Nat.not_lt_zero k)
        · omega
        · omega
        · rw [← hEVS]; simp [allGrants, grantedData, List.filterMap_cons]
        · rw [← hEVS]
          intro e he
          rcases List.mem_cons.1 he with h | h
          · rw [h]; rfl
          · exact absurd h (List.not_mem_nil e)
        · intro h
          rw [← hOK] at h
          simp at h
        · constructor
          · intro _
            constructor
            · simpa using hp
            · omega
          · omega
      · rw [if_neg hp] at hfe
        rcases hR : fillLoop supply regionsize mmuflags tp j
            (set_l2_entry tbl (supply ac) v mmuflags) (v + MM_PGSIZE)
            (n + MM_PGSIZE) (ac + 1) with ⟨T', V', N', AC', EVS', OK'⟩
        rw [hR] at hfe
        simp only [Prod.mk.injEq] at hfe
        obtain ⟨hT, hV, hN, hAC, hEVS, hOK⟩ := hfe
        obtain ⟨s', ih1, ih2, ih3, ih4, ih5, ih6, ih7, ih8⟩ :=
          ih (set_l2_entry tbl (supply ac) v mmuflags) (v + MM_PGSIZE)
            (n + MM_PGSIZE) (ac + 1) T' V' N' AC' EVS' OK'
            (Dvd.dvd.add hdvd (dvd_refl _)) hR
        obtain ⟨m, hm⟩ := hdvd
        have hdiv1 : n / MM_PGSIZE = m := by
          rw [hm]; exact Nat.mul_div_cancel_left m (by decide)
        have hdiv2 : (n + MM_PGSIZE) / MM_PGSIZE = m + 1 := by
          rw [hm, ← Nat.mul_succ]
          exact Nat.mul_div_cancel_left (m + 1) (by decide)
        have hmNP : m < MM_NPAGES regionsize := by
          have := (div_lt_npages_iff n regionsize ⟨m, hm⟩).1 hn
          omega
        refine ⟨s' + 1, ?_, ?_, ?_, ?_, ?_, ?_, ?_, ?_⟩
        · rw [← hEVS, grantedData_cons_allocPage _ _ hp,
            grantedData_cons_setEntry, ih1, List.range'_succ]
          simp
        · intro k hk
          match k with
          | 0 => simpa using hp
          | k + 1 =>
            rw [show ac + (k + 1) = ac + 1 + k by omega]
            exact ih2 k (by omega)
        · rw [← hN, ih3, Nat.mul_succ]; omega
        · rw [← hV, ih4, Nat.mul_succ]; omega
        · rw [← hEVS, grantedData_cons_allocPage _ _ hp,
            grantedData_cons_setEntry, allGrants_cons_allocPage _ _ hp,
            allGrants_cons_setEntry, ih5]
        · rw [← hEVS]
          intro e he
          rcases List.mem_cons.1 he with h | h
          · rw [h]; rfl
          · rcases List.mem_cons.1 h with h2 | h2
            · rw [h2]; simp [isEntryEv]
            · exact ih6 e h2
        · intro h
          rw [← hOK] at h
          obtain ⟨hs', hAC'⟩ := ih7 h
          rw [hdiv2, hdiv1] at *
          constructor
          · rw [hs', hdiv2]
            omega
          · rw [← hAC, hAC', hs', hdiv2]
            omega
        · constructor
          · intro h
            rw [← hOK] at h
            obtain ⟨hz, hAC'⟩ := ih8.1 h
            constructor
            · rw [show ac + (s' + 1) = ac + 1 + s' by omega]
              exact hz
            · rw [← hAC, hAC']
              omega
          · have := ih8.2
            omega
    · rw [if_neg hn] at hfe
      simp only [Prod.mk.injEq] at hfe
      obtain ⟨hT, hV, hN, hAC, hEVS, hOK⟩ := hfe
      have hge : MM_NPAGES regionsize ≤ n / MM_PGSIZE := by
        by_contra hcon
        exact hn ((div_lt_npages_iff n regionsize hdvd).2 (by omega))
      refine ⟨0, ?_, ?_, ?_, ?_, ?_, ?_, ?_, ?_⟩
      · rw [← hEVS]; simp [grantedData]
      · intro k hk; exact absurd hk (Nat.not_lt_zero k)
      · omega
      · omega
      · rw [← hEVS]; rfl
      · rw [← hEVS]; intro e he; exact absurd he (List.not_mem_nil e)
      · intro _
        constructor
        · omega
        · omega
      · constructor
        · intro h
          rw [← hOK] at h
          simp at h
        · exact Nat.zero_le _

theorem l2_encode_ne_zero (p f : Nat) (hal : p % MM_PGSIZE = 0)
    (hp32 : p < U32) (hf : f < MM_PGSIZE) (hp : p ≠ 0) :
    l2_encode p f ≠ 0 := by
  intro h0
  have hdec := l2_decode_l2_encode p f hal hp32 hf
  rw [h0] at hdec
  have : l2_decode 0 = 0 := by decide
  rw [this] at hdec
  exact hp hdec.symm

theorem fillLoop_table (supply : Nat → Nat) (regionsize mmuflags tp : Nat)
    (hal : ∀ k, supply k % MM_PGSIZE = 0 ∧ supply k < U32)
    (hfl : mmuflags < MM_PGSIZE) :
    ∀ j tbl v n ac T V N AC EVS OK,
      j ≤ ENTRIES_PER_L2TABLE →
      tbl.length = ENTRIES_PER_L2TABLE →
      (∀ t, t < j → tbl.getD (l2_index (v + MM_PGSIZE * t)) 0 = 0) →
      fillLoop supply regionsize mmuflags tp j tbl v n ac =
        (T, V, N, AC, EVS, OK) →
      List.Perm (scanFrees T) (scanFrees tbl ++ grantedData EVS) ∧
      T.length = ENTRIES_PER_L2TABLE := by
  intro j
  induction j with
  | zero =>
    intro tbl v n ac T V N AC EVS OK _ hlen _ hfe
    simp only [fillLoop, Prod.mk.injEq] at hfe
    obtain ⟨hT, _, _, _, hEVS, _⟩ := hfe
    rw [← hT, ← hEVS]
    constructor
    · simp [grantedData]
    · exact hlen
  | succ j ih =>
    intro tbl v n ac T V N AC EVS OK hj hlen hz hfe
    simp only [fillLoop] at hfe
    by_cases hn : n < regionsize
    · rw [if_pos hn] at hfe
      by_cases hp : supply ac = 0
      · rw [if_pos hp] at hfe
        simp only [Prod.mk.injEq] at hfe
        obtain ⟨hT, _, _, _, hEVS, _⟩ := hfe
        rw [← hT, ← hEVS]
        constructor
        · simp [grantedData, List.filterMap_cons]
        · exact hlen
      · rw [if_neg hp] at hfe
        rcases hR : fillLoop supply regionsize mmuflags tp j
            (set_l2_entry tbl (supply ac) v mmuflags) (v + MM_PGSIZE)
            (n + MM_PGSIZE) (ac + 1) with ⟨T', V', N', AC', EVS', OK'⟩
        rw [hR] at hfe
        simp only [Prod.mk.injEq] at hfe
        obtain ⟨hT, hV, hN, hAC, hEVS, hOK⟩ := hfe
        have hidxv : l2_index v = v / MM_PGSIZE % ENTRIES_PER_L2TABLE := by
          have h := l2_index_add v 0
          simpa using h
        have hidxlt : l2_index v < ENTRIES_PER_L2TABLE := l2_index_lt v
        have h0 : tbl.getD (l2_index v) 0 = 0 := by
          have h := hz 0 (by omega)
          simpa using h
        have hlen2 : (set_l2_entry tbl (supply ac) v mmuflags).length =
            ENTRIES_PER_L2TABLE := by
          simp [set_l2_entry, hlen]
        have hz2 : ∀ t, t < j →
            (set_l2_entry tbl (supply ac) v mmuflags).getD
              (l2_index (v + MM_PGSIZE + MM_PGSIZE * t)) 0 = 0 := by
          intro t ht
          have harg : v + MM_PGSIZE + MM_PGSIZE * t =
              v + MM_PGSIZE * (t + 1) := by
            rw [Nat.mul_succ]; omega
          rw [harg]
          have hne : l2_index v ≠ l2_index (v + MM_PGSIZE * (t + 1)) := by
            rw [hidxv, l2_index_add]
            have h256 : t + 1 < ENTRIES_PER_L2TABLE := by
              simp only [ENTRIES_PER_L2TABLE] at *
              omega
            simp only [ENTRIES_PER_L2TABLE] at *
            omega
          rw [set_l2_entry, getD_set_ne _ _ _ _ hne]
          exact hz (t + 1) (by omega)
        obtain ⟨ihperm, ihlen⟩ := ih (set_l2_entry tbl (supply ac) v mmuflags)
          (v + MM_PGSIZE) (n + MM_PGSIZE) (ac + 1) T' V' N' AC' EVS' OK'
          (by omega) hlen2 hz2 hR
        have hdec : l2_decode (l2_encode (supply ac) mmuflags) = supply ac :=
          l2_decode_l2_encode (supply ac) mmuflags (hal ac).1 (hal ac).2 hfl
        have hene : l2_encode (supply ac) mmuflags ≠ 0 :=
          l2_encode_ne_zero (supply ac) mmuflags (hal ac).1 (hal ac).2 hfl hp
        have hsf : List.Perm (scanFrees (set_l2_entry tbl (supply ac) v
            mmuflags)) (scanFrees tbl ++ [supply ac]) := by
          have h := scanFrees_set tbl (l2_index v)
            (l2_encode (supply ac) mmuflags) hlen hidxlt h0 hene
          rw [hdec] at h
          exact h
        constructor
        · rw [← hT, ← hEVS, grantedData_cons_allocPage _ _ hp,
            grantedData_cons_setEntry]
          have step1 : List.Perm (scanFrees T')
              ((scanFrees tbl ++ [supply ac]) ++ grantedData EVS') :=
            ihperm.trans (List.Perm.append_right (grantedData EVS') hsf)
          have step2 : (scanFrees tbl ++ [supply ac]) ++ grantedData EVS' =
              scanFrees tbl ++ (supply ac :: grantedData EVS') := by
            rw [List.append_assoc]
            rfl
          rw [step2] at step1
          exact step1
        · rw [← hT]; exact ihlen
    · rw [if_neg hn] at hfe
      simp only [Prod.mk.injEq] at hfe
      obtain ⟨hT, _, _, _, hEVS, _⟩ := hfe
      rw [← hT, ← hEVS]
      constructor
      · simp [grantedData]
      · exact hlen

theorem getD_replicate_zero (k t : Nat) :
    (List.replicate k (0 : Nat)).getD t 0 = 0 := by
  rcases Nat.lt_or_ge t k with h | h
  · simp [List.getD_eq_getElem?_getD, List.getElem?_replicate, h]
  · simp [List.getD_eq_getElem?_getD, List.getElem?_replicate,
      Nat.not_lt.2 h]

theorem scanFrees_replicate :
    scanFrees (List.replicate ENTRIES_PER_L2TABLE 0) = [] := by
  unfold scanFrees
  apply List.filterMap_eq_nil_iff.mpr
  intro a _
  simp [getD_replicate_zero]

theorem allGrants_block (p i : Nat) (fevs : List Ev) (hp : p ≠ 0) :
    allGrants (Ev.allocTable p :: Ev.publish i p :: Ev.enterCS ::
      Ev.zeroTable p :: fevs) = p :: allGrants fevs := by
  simp [allGrants, List.filterMap_cons, hp]

theorem grantedData_block (p i : Nat) (fevs : List Ev) :
    grantedData (Ev.allocTable p :: Ev.publish i p :: Ev.enterCS ::
      Ev.zeroTable p :: fevs) = grantedData fevs := by
  simp [grantedData, List.filterMap_cons]

theorem allGrants_flush_leave (p : Nat) :
    allGrants [Ev.flush p, Ev.leaveCS] = [] := by
  simp [allGrants, List.filterMap_cons]

theorem grantedData_flush_leave (p : Nat) :
    grantedData [Ev.flush p, Ev.leaveCS] = [] := by
  simp [grantedData, List.filterMap_cons]

theorem grantedTables_flush_leave (p : Nat) :
    grantedTables [Ev.flush p, Ev.leaveCS] = [] := by
  simp [grantedTables, List.filterMap_cons]

theorem grantedData_leave : grantedData [Ev.leaveCS] = [] := by
  simp [grantedData, List.filterMap_cons]

theorem allGrants_leave : allGrants [Ev.leaveCS] = [] := by
  simp [allGrants, List.filterMap_cons]

theorem grantedTables_leave : grantedTables [Ev.leaveCS] = [] := by
  simp [grantedTables, List.filterMap_cons]

theorem buildLoop_spec (supply : Nat → Nat) (regionsize mmuflags : Nat)
    (hal : ∀ k, supply k % MM_PGSIZE = 0 ∧ supply k < U32)
    (hfl : mmuflags < MM_PGSIZE)
    (hinj : ∀ a b, supply a ≠ 0 → supply a = supply b → a = b) :
    ∀ r i v n st OK ST EVS,
      MM_PGSIZE ∣ n →
      i + r ≤ st.list.length →
      buildLoop supply regionsize mmuflags r i v n st = (OK, ST, EVS) →
      ∃ g dpss,
        allGrants EVS = (List.range' st.acnt g).map supply ∧
        (∀ k, k < g → supply (st.acnt + k) ≠ 0) ∧
        (OK = false → supply (st.acnt + g) = 0) ∧
        (grantedTables EVS).length = dpss.length ∧
        grantedData EVS = dpss.flatten ∧
        allGrants EVS = (List.zipWith (fun p d => p :: d)
          (grantedTables EVS) dpss).flatten ∧
        (∀ m, ST.list.getD m 0 =
          if i ≤ m ∧ m < i + (grantedTables EVS).length then
            (grantedTables EVS).getD (m - i) 0
          else st.list.getD m 0) ∧
        (∀ m, m < (grantedTables EVS).length →
          List.Perm (scanFrees (ST.mem ((grantedTables EVS).getD m 0)))
            (dpss.getD m [])) ∧
        (∀ q, q ∉ grantedTables EVS → ST.mem q = st.mem q) ∧
        (∀ q, q ∈ grantedTables EVS → q ≠ 0 ∧ q ∈ allGrants EVS) ∧
        ((OK = true → (grantedData EVS).length =
          min (r * ENTRIES_PER_L2TABLE)
            (MM_NPAGES regionsize - n / MM_PGSIZE)) ∧
          g ≤ r * (ENTRIES_PER_L2TABLE + 1)) := by
  intro r
  induction r with
  | zero =>
    intro i v n st OK ST EVS _ _ hfe
    simp only [buildLoop, Prod.mk.injEq] at hfe
    obtain ⟨hOK, hST, hEVS⟩ := hfe
    subst hOK; subst hST; subst hEVS
    refine ⟨0, [], ?_, ?_, ?_, ?_, ?_, ?_, ?_, ?_, ?_, ?_, ?_⟩
    · rfl
    · intro k hk; exact absurd hk (Nat.not_lt_zero k)
    · intro h; simp at h
    · rfl
    · rfl
    · rfl
    · intro m
      rw [if_neg (by
        simp only [grantedTables, List.filterMap_nil, List.length_nil]
        omega)]
    · intro m hm
      simp [grantedTables] at hm
    · intro q _; rfl
    · intro q hq; simp [grantedTables] at hq
    · constructor
      · intro _
        simp [grantedData, MM_NPAGES]
      · exact Nat.le_refl 0
  | succ r ih =>
    intro i v n st OK ST EVS hdvd hbound hfe
    simp only [buildLoop] at hfe
    by_cases htp : supply st.acnt = 0
    · rw [if_pos htp] at hfe
      simp only [Prod.mk.injEq] at hfe
      obtain ⟨hOK, hST, hEVS⟩ := hfe
      subst hOK; subst hST; subst hEVS
      have htab : grantedTables [Ev.allocTable 0] = [] := by
        simp [grantedTables, List.filterMap_cons]
      have hag : allGrants [Ev.allocTable 0] = [] := by
        simp [allGrants, List.filterMap_cons]
      have hgd : grantedData [Ev.allocTable 0] = [] := by
        simp [grantedData, List.filterMap_cons]
      refine ⟨0, [], ?_, ?_, ?_, ?_, ?_, ?_, ?_, ?_, ?_, ?_, ?_⟩
      · rw [hag]; rfl
      · intro k hk; exact absurd hk (Nat.not_lt_zero k)
      · intro _; simpa using htp
      · rw [htab]; rfl
      · rw [hgd]; rfl
      · rw [hag, htab]; rfl
      · intro m
        rw [htab, if_neg (by simp only [List.length_nil]; omega)]
      · intro m hm
        rw [htab] at hm
        simp at hm
      · intro q _; rfl
      · intro q hq; rw [htab] at hq; simp at hq
      · constructor
        · intro h; simp at h
        · exact Nat.zero_le _
    · rw [if_neg htp] at hfe
      have hnt0 := fillLoop_noTables supply regionsize mmuflags
        (supply st.acnt) ENTRIES_PER_L2TABLE
        (List.replicate ENTRIES_PER_L2TABLE 0) v n (st.acnt + 1)
      rcases hR : fillLoop supply regionsize mmuflags (supply st.acnt)
          ENTRIES_PER_L2TABLE (List.replicate ENTRIES_PER_L2TABLE 0) v n
          (st.acnt + 1) with ⟨T, V, N, AC, fevs, fok⟩
      rw [hR] at hfe hnt0
      obtain ⟨s, f1, f2, f3, f4, f5, f6, f7, f8⟩ :=
        fillLoop_spec supply regionsize mmuflags (supply st.acnt)
          ENTRIES_PER_L2TABLE (List.replicate ENTRIES_PER_L2TABLE 0) v n
          (st.acnt + 1) T V N AC fevs fok hdvd hR
      obtain ⟨fT1, fT2⟩ :=
        fillLoop_table supply regionsize mmuflags (supply st.acnt) hal hfl
          ENTRIES_PER_L2TABLE (List.replicate ENTRIES_PER_L2TABLE 0) v n
          (st.acnt + 1) T V N AC fevs fok (Nat.le_refl _) (by simp)
          (fun t _ => getD_replicate_zero _ _) hR
      rw [scanFrees_replicate, List.nil_append] at fT1
      have hslen : (grantedData fevs).length = s := by
        rw [f1]; simp
      have hilt : i < st.list.length := by omega
      cases fok with
      | false =>
        simp only [Bool.false_eq_true, if_false, Prod.mk.injEq] at hfe
        obtain ⟨hOK, hST, hEVS⟩ := hfe
        subst hOK; subst hST; subst hEVS
        obtain ⟨hz0, hACf⟩ := f8.1 rfl
        have htabs : grantedTables ((Ev.allocTable (supply st.acnt) ::
            Ev.publish i (supply st.acnt) :: Ev.enterCS ::
            Ev.zeroTable (supply st.acnt) :: fevs) ++ [Ev.leaveCS]) =
            [supply st.acnt] := by
          rw [grantedTables_append,
            grantedTables_block _ i fevs htp hnt0, grantedTables_leave,
            List.append_nil]
        have hags : allGrants ((Ev.allocTable (supply st.acnt) ::
            Ev.publish i (supply st.acnt) :: Ev.enterCS ::
            Ev.zeroTable (supply st.acnt) :: fevs) ++ [Ev.leaveCS]) =
            supply st.acnt :: grantedData fevs := by
          rw [allGrants_append, allGrants_block _ i fevs htp,
            allGrants_leave, List.append_nil, f5]
        have hgds : grantedData ((Ev.allocTable (supply st.acnt) ::
            Ev.publish i (supply st.acnt) :: Ev.enterCS ::
            Ev.zeroTable (supply st.acnt) :: fevs) ++ [Ev.leaveCS]) =
            grantedData fevs := by
          rw [grantedData_append, grantedData_block _ i fevs,
            grantedData_leave, List.append_nil]
        refine ⟨s + 1, [grantedData fevs], ?_, ?_, ?_, ?_, ?_, ?_, ?_, ?_,
          ?_, ?_, ?_⟩
        · rw [hags, f1, List.range'_succ]
          simp
        · intro k hk
          match k with
          | 0 => simpa using htp
          | k + 1 =>
            rw [show st.acnt + (k + 1) = st.acnt + 1 + k by omega]
            exact f2 k (by omega)
        · intro _
          rw [show st.acnt + (s + 1) = st.acnt + 1 + s by omega]
          exact hz0
        · rw [htabs]; rfl
        · rw [hgds]; simp
        · rw [hags, htabs]
          simp
        · intro m
          rw [htabs]
          by_cases hc : i ≤ m ∧ m < i + 1
          · rw [if_pos (by simpa using hc)]
            have hmi : m = i := by omega
            subst hmi
            simp only [Nat.sub_self, List.getD_cons_zero]
            exact getD_set_self st.list m (supply st.acnt) hilt
          · rw [if_neg (by simpa using hc)]
            exact getD_set_ne _ _ _ _ (by omega)
        · intro m hm
          rw [htabs] at hm
          simp only [List.length_singleton] at hm
          have hm0 : m = 0 := by omega
          subst hm0
          have harg : (grantedTables ((Ev.allocTable (supply st.acnt) ::
              Ev.publish i (supply st.acnt) :: Ev.enterCS ::
              Ev.zeroTable (supply st.acnt) :: fevs) ++
              [Ev.leaveCS])).getD 0 0 = supply st.acnt := by
            rw [htabs]
            rfl
          rw [harg]
          show List.Perm (scanFrees (Function.update st.mem (supply st.acnt)
            T (supply st.acnt))) ([grantedData fevs].getD 0 [])
          rw [Function.update_same]
          exact fT1
        · intro q hq
          rw [htabs] at hq
          have hqne : q ≠ supply st.acnt := by
            intro h; exact hq (h ▸ List.mem_singleton_self _)
          exact Function.update_noteq hqne _ _
        · intro q hq
          rw [htabs] at hq
          have hq' : q = supply st.acnt := List.mem_singleton.1 hq
          subst hq'
          exact ⟨htp, by rw [hags]; exact List.mem_cons_self _ _⟩
        · constructor
          · intro h; simp at h
          · have hs := f8.2
            simp only [ENTRIES_PER_L2TABLE] at hs ⊢
            omega
      | true =>
        obtain ⟨hsval, hACt⟩ := f7 rfl
        rcases hB : buildLoop supply regionsize mmuflags r (i + 1) V N
            ⟨st.list.set i (supply st.acnt),
              Function.update st.mem (supply st.acnt) T, AC⟩
          with ⟨OK2, ST2, bevs⟩
        simp only [eq_self_iff_true, if_true] at hfe
        rw [hB] at hfe
        simp only [Prod.mk.injEq] at hfe
        obtain ⟨hOK, hST, hEVS⟩ := hfe
        subst hOK; subst hST; subst hEVS
        have hNdvd : MM_PGSIZE ∣ N := by
          rw [f3]; exact Dvd.dvd.add hdvd (dvd_mul_right _ _)
        have hbound2 : (i + 1) + r ≤
            (st.list.set i (supply st.acnt)).length := by
          rw [List.length_set]; omega
        obtain ⟨g2, dpss2, b1, b2, b3, b4, b5, b6, b7, b8, b9, b10, b11⟩ :=
          ih (i + 1) V N
            ⟨st.list.set i (supply st.acnt),
              Function.update st.mem (supply st.acnt) T, AC⟩
            OK2 ST2 bevs hNdvd hbound2 hB
        have hAC3 : (⟨st.list.set i (supply st.acnt),
            Function.update st.mem (supply st.acnt) T, AC⟩ : St).acnt =
            st.acnt + 1 + s := hACt
        rw [hAC3] at b1 b2 b3
        have htabs : grantedTables (((Ev.allocTable (supply st.acnt) ::
            Ev.publish i (supply st.acnt) :: Ev.enterCS ::
            Ev.zeroTable (supply st.acnt) :: fevs) ++
            [Ev.flush (supply st.acnt), Ev.leaveCS]) ++ bevs) =
            supply st.acnt :: grantedTables bevs := by
          rw [grantedTables_append, grantedTables_append,
            grantedTables_block _ i fevs htp hnt0,
            grantedTables_flush_leave, List.append_nil]
          rfl
        have hags : allGrants (((Ev.allocTable (supply st.acnt) ::
            Ev.publish i (supply st.acnt) :: Ev.enterCS ::
            Ev.zeroTable (supply st.acnt) :: fevs) ++
            [Ev.flush (supply st.acnt), Ev.leaveCS]) ++ bevs) =
            supply st.acnt :: (grantedData fevs ++ allGrants bevs) := by
          rw [allGrants_append, allGrants_append,
            allGrants_block _ i fevs htp, allGrants_flush_leave,
            List.append_nil, f5]
          rfl
        have hgds : grantedData (((Ev.allocTable (supply st.acnt) ::
            Ev.publish i (supply st.acnt) :: Ev.enterCS ::
            Ev.zeroTable (supply st.acnt) :: fevs) ++
            [Ev.flush (supply st.acnt), Ev.leaveCS]) ++ bevs) =
            grantedData fevs ++ grantedData bevs := by
          rw [grantedData_append, grantedData_append,
            grantedData_block _ i fevs, grantedData_flush_leave,
            List.append_nil]
        have htpnotin : supply st.acnt ∉ grantedTables bevs := by
          intro hmem
          have hin := (b10 _ hmem).2
          rw [b1] at hin
          obtain ⟨x, hx1, hx2⟩ := List.mem_map.1 hin
          have hx3 := List.mem_range'_1.1 hx1
          have := hinj st.acnt x htp hx2.symm
          omega
        refine ⟨g2 + s + 1, grantedData fevs :: dpss2, ?_, ?_, ?_, ?_, ?_,
          ?_, ?_, ?_, ?_, ?_, ?_⟩
        · rw [hags, f1, b1]
          rw [← List.map_append, List.range'_append_1]
          rw [List.range'_succ]
          rfl
        · intro k hk
          match k with
          | 0 => simpa using htp
          | k + 1 =>
            rcases Nat.lt_or_ge k s with hks | hks
            · rw [show st.acnt + (k + 1) = st.acnt + 1 + k by omega]
              exact f2 k hks
            · rw [show st.acnt + (k + 1) = st.acnt + 1 + s + (k - s)
                by omega]
              exact b2 (k - s) (by omega)
        · intro h
          have := b3 h
          rw [show st.acnt + (g2 + s + 1) = st.acnt + 1 + s + g2 by omega]
          exact this
        · rw [htabs]
          simp [b4]
        · rw [hgds, b5]
          rfl
        · rw [hags, htabs, b6]
          rfl
        · intro m
          have hb7 := b7 m
          rw [htabs]
          simp only [List.length_cons]
          by_cases hc : i ≤ m ∧ m < i + ((grantedTables bevs).length + 1)
          · rw [if_pos hc]
            by_cases hmi : m = i
            · subst hmi
              rw [hb7, if_neg (by omega)]
              simp only [Nat.sub_self, List.getD_cons_zero]
              exact getD_set_self st.list m (supply st.acnt) hilt
            · rw [hb7, if_pos ⟨by omega, by omega⟩]
              rw [show m - i = (m - (i + 1)) + 1 by omega,
                List.getD_cons_succ]
          · rw [if_neg hc]
            rw [hb7, if_neg (by omega)]
            exact getD_set_ne _ _ _ _ (by omega)
        · intro m hm
          rw [htabs] at hm ⊢
          simp only [List.length_cons] at hm
          match m with
          | 0 =>
            simp only [List.getD_cons_zero]
            rw [b9 _ htpnotin]
            show List.Perm (scanFrees (Function.update st.mem
              (supply st.acnt) T (supply st.acnt))) (grantedData fevs)
            rw [Function.update_same]
            exact fT1
          | m + 1 =>
            simp only [List.getD_cons_succ]
            exact b8 m (by omega)
        · intro q hq
          rw [htabs] at hq
          have hqne : q ≠ supply st.acnt := fun h => hq (h ▸ List.mem_cons_self _ _)
          have hqnot : q ∉ grantedTables bevs := fun h =>
            hq (List.mem_cons_of_mem _ h)
          rw [b9 q hqnot]
          exact Function.update_noteq hqne _ _
        · intro q hq
          rw [htabs] at hq
          rcases List.mem_cons.1 hq with h | h
          · subst h
            exact ⟨htp, by rw [hags]; exact List.mem_cons_self _ _⟩
          · obtain ⟨hne, hmem⟩ := b10 q h
            refine ⟨hne, ?_⟩
            rw [b1] at hmem
            rw [hags]
            exact List.mem_cons_of_mem _ (List.mem_append_right _
              (by rw [b1]; exact hmem))
        · constructor
          · intro hOK2
            rw [hgds, List.length_append, hslen, b11.1 hOK2]
            obtain ⟨m, hm⟩ := hdvd
            have hdiv1 : n / MM_PGSIZE = m := by
              rw [hm]; exact Nat.mul_div_cancel_left m (by decide)
            have hdiv2 : N / MM_PGSIZE = m + s := by
              rw [f3, hm, ← Nat.mul_add]
              exact Nat.mul_div_cancel_left (m + s) (by decide)
            rw [hdiv1, hdiv2, hsval, hdiv1]
            simp only [ENTRIES_PER_L2TABLE]
            omega
          · have hb12 := b11.2
            have hs := f8.2
            simp only [ENTRIES_PER_L2TABLE] at hb12 hs ⊢
            omega

theorem getD_oob (l : List Nat) (m : Nat) (h : l.length ≤ m) :
    l.getD m 0 = 0 := by
  simp [List.getD_eq_getElem?_getD, List.getElem?_eq_none h]

theorem freedPages_map_free (l : List Nat) :
    freedPages (l.map Ev.free) = l := by
  induction l with
  | nil => rfl
  | cons a t ih =>
    simp only [List.map_cons, freedPages, List.filterMap_cons] at ih ⊢
    rw [ih]

theorem destroyLoop_null (keep : Bool) (listlen : Nat)
    (mem : Nat → List Nat) :
    ∀ fuel w v lst,
      (∀ m, m < listlen → lst.getD m 0 = 0) →
      (destroyLoop keep listlen mem fuel w v lst).1 = lst ∧
      (destroyLoop keep listlen mem fuel w v lst).2.1 = [] := by
  intro fuel
  induction fuel with
  | zero => intro w v lst _; exact ⟨rfl, rfl⟩
  | succ fuel ih =>
    intro w v lst hz
    simp only [destroyLoop]
    by_cases hg : w % U32 < listlen
    · rw [if_pos hg]
      have hp : lst.getD (w % U32) 0 = 0 := hz (w % U32) hg
      rw [if_pos hp]
      exact ih ((w + 1) % U32) (v + SECTION_SIZE) lst hz
    · rw [if_neg hg]
      exact ⟨rfl, rfl⟩

theorem freedPages_cons_enterCS (t : List Ev) :
    freedPages (Ev.enterCS :: t) = freedPages t := by
  simp [freedPages, List.filterMap_cons]

theorem freedPages_cons_leaveCS (t : List Ev) :
    freedPages (Ev.leaveCS :: t) = freedPages t := by
  simp [freedPages, List.filterMap_cons]

theorem freedPages_cons_free (p : Nat) (t : List Ev) :
    freedPages (Ev.free p :: t) = p :: freedPages t := by
  simp [freedPages, List.filterMap_cons]

theorem destroyLoop_spec (keep : Bool) (listlen : Nat)
    (mem : Nat → List Nat) (hll : listlen < U32) :
    ∀ fuel w v lst L EVS VIS EX,
      w ≤ listlen →
      listlen ≤ w + fuel →
      destroyLoop keep listlen mem fuel w v lst = (L, EVS, VIS, EX) →
      EX = true ∧
      VIS = List.range' w (listlen - w) ∧
      (∀ m, L.getD m 0 = if w ≤ m ∧ m < listlen then 0
        else lst.getD m 0) ∧
      freedPages EVS = ((List.range' w (listlen - w)).map (fun m =>
        if lst.getD m 0 = 0 then []
        else (if keep then [] else scanFrees (mem (lst.getD m 0))) ++
          [lst.getD m 0])).flatten := by
  intro fuel
  induction fuel with
  | zero =>
    intro w v lst L EVS VIS EX hw hfuel hde
    have hwl : w = listlen := by omega
    subst hwl
    simp only [destroyLoop, Prod.mk.injEq] at hde
    obtain ⟨hL, hEVS, hVIS, hEX⟩ := hde
    have hmod : w % U32 = w := Nat.mod_eq_of_lt hll
    rw [hmod] at hEX
    simp only [Nat.lt_irrefl, decide_False, Bool.not_false] at hEX
    refine ⟨hEX.symm, ?_, ?_, ?_⟩
    · rw [← hVIS, Nat.sub_self]; rfl
    · intro m
      rw [← hL, if_neg (by omega)]
    · rw [← hEVS, Nat.sub_self]; rfl
  | succ fuel ih =>
    intro w v lst L EVS VIS EX hw hfuel hde
    simp only [destroyLoop] at hde
    by_cases hg : w < listlen
    · have hmod : w % U32 = w := Nat.mod_eq_of_lt (by omega)
      rw [hmod] at hde
      rw [if_pos hg] at hde
      have hw1 : (w + 1) % U32 = w + 1 := Nat.mod_eq_of_lt (by omega)
      have h1 : listlen - w = (listlen - (w + 1)) + 1 := by omega
      by_cases hp : lst.getD w 0 = 0
      · rw [if_pos hp] at hde
        rcases hrec : destroyLoop keep listlen mem fuel ((w + 1) % U32)
            (v + SECTION_SIZE) lst with ⟨L2, EVS2, VIS2, EX2⟩
        rw [hrec] at hde
        simp only [Prod.mk.injEq] at hde
        obtain ⟨hL, hEVS, hVIS, hEX⟩ := hde
        rw [hw1] at hrec
        obtain ⟨e1, e2, e3, e4⟩ := ih (w + 1) (v + SECTION_SIZE) lst L2
          EVS2 VIS2 EX2 (by omega) (by omega) hrec
        refine ⟨by rw [← hEX, e1], ?_, ?_, ?_⟩
        · rw [← hVIS, e2, h1, List.range'_succ]
        · intro m
          rw [← hL, e3 m]
          by_cases hc : w + 1 ≤ m ∧ m < listlen
          · rw [if_pos hc, if_pos (by omega)]
          · rw [if_neg hc]
            by_cases hc2 : w ≤ m ∧ m < listlen
            · have hmw : m = w := by omega
              rw [if_pos hc2, hmw, hp]
            · rw [if_neg hc2]
        · rw [← hEVS, e4, h1, List.range'_succ, List.map_cons,
            List.flatten_cons, if_pos hp, List.nil_append]
      · rw [if_neg hp] at hde
        have hwlen : w < lst.length := by
          by_contra hcon
          exact hp (getD_oob lst w (by omega))
        rcases hrec : destroyLoop keep listlen mem fuel ((w + 1) % U32)
            (v + SECTION_SIZE) (lst.set w 0) with ⟨L2, EVS2, VIS2, EX2⟩
        rw [hrec] at hde
        simp only [Prod.mk.injEq] at hde
        obtain ⟨hL, hEVS, hVIS, hEX⟩ := hde
        rw [hw1] at hrec
        obtain ⟨e1, e2, e3, e4⟩ := ih (w + 1) (v + SECTION_SIZE)
          (lst.set w 0) L2 EVS2 VIS2 EX2 (by omega) (by omega) hrec
        have hmapc : ((List.range' (w + 1) (listlen - (w + 1))).map (fun m =>
            if (lst.set w 0).getD m 0 = 0 then []
            else (if keep then []
              else scanFrees (mem ((lst.set w 0).getD m 0))) ++
              [(lst.set w 0).getD m 0])) =
            ((List.range' (w + 1) (listlen - (w + 1))).map (fun m =>
            if lst.getD m 0 = 0 then []
            else (if keep then [] else scanFrees (mem (lst.getD m 0))) ++
              [lst.getD m 0])) := by
          apply List.map_congr_left
          intro m hm
          have hm' : w + 1 ≤ m := (List.mem_range'_1.1 hm).1
          rw [getD_set_ne lst w m 0 (by omega)]
        rw [hmapc] at e4
        have hevs0 : freedPages (if keep then [Ev.enterCS, Ev.leaveCS]
            else Ev.enterCS ::
              ((scanFrees (mem (lst.getD w 0))).map Ev.free) ++
              [Ev.leaveCS]) =
            (if keep then [] else scanFrees (mem (lst.getD w 0))) := by
          cases keep
          · simp only [Bool.false_eq_true, if_false]
            rw [show (Ev.enterCS ::
                ((scanFrees (mem (lst.getD w 0))).map Ev.free) ++
                [Ev.leaveCS] : List Ev) =
              Ev.enterCS ::
                (((scanFrees (mem (lst.getD w 0))).map Ev.free) ++
                [Ev.leaveCS]) from rfl]
            rw [freedPages_cons_enterCS, freedPages_append,
              freedPages_map_free, freedPages_cons_leaveCS]
            simp [freedPages]
          · simp only [if_true]
            rw [freedPages_cons_enterCS, freedPages_cons_leaveCS]
            rfl
        refine ⟨by rw [← hEX, e1], ?_, ?_, ?_⟩
        · rw [← hVIS, e2, h1, List.range'_succ]
        · intro m
          rw [← hL, e3 m]
          by_cases hc : w + 1 ≤ m ∧ m < listlen
          · rw [if_pos hc, if_pos (by omega)]
          · rw [if_neg hc]
            by_cases hc2 : w ≤ m ∧ m < listlen
            · have hmw : m = w := by omega
              subst hmw
              rw [if_pos hc2]
              exact getD_set_self lst m 0 hwlen
            · rw [if_neg hc2]
              exact getD_set_ne _ _ _ _ (by omega)
        · rw [← hEVS, freedPages_append, hevs0, freedPages_cons_free, e4,
            h1, List.range'_succ, List.map_cons, List.flatten_cons, if_neg hp,
            List.append_assoc]
          rfl
    · have hwl : w = listlen := by omega
      rw [hwl, Nat.mod_eq_of_lt hll, if_neg (Nat.lt_irrefl listlen)] at hde
      simp only [Prod.mk.injEq] at hde
      obtain ⟨hL, hEVS, hVIS, hEX⟩ := hde
      refine ⟨hEX.symm, ?_, ?_, ?_⟩
      · rw [← hVIS, hwl, Nat.sub_self]; rfl
      · intro m
        rw [← hL, if_neg (by omega)]
      · rw [← hEVS, hwl, Nat.sub_self]; rfl

/-- C8: for every value of `listlen` in the range of its `unsigned int`
type, `destroy_region` terminates — its loop, whose signed `int` counter
is compared against the unsigned `listlen` under the usual arithmetic
conversions (i.e. modulo 2^32) and wraps on increment past the type
range, exits through the guard within `listlen` iterations — and it
visits each of the `listlen` table-list slots exactly once, in increasing
index order. -/
theorem c8_destroy_visits_all (st : St) (listlen vaddr : Nat) (keep : Bool)
    (hll : listlen < U32) :
    (destroyLoop keep listlen st.mem listlen 0 vaddr st.list).2.2.2 =
      true ∧
    (arm_addrenv_destroy_region st listlen vaddr keep).2.2 =
      List.range listlen := by
  rcases hde : destroyLoop keep listlen st.mem listlen 0 vaddr st.list
    with ⟨L, EVS, VIS, EX⟩
  obtain ⟨e1, e2, _, _⟩ := destroyLoop_spec keep listlen st.mem hll
    listlen 0 vaddr st.list L EVS VIS EX (Nat.zero_le _) (by omega) hde
  constructor
  · exact e1
  · simp only [arm_addrenv_destroy_region]
    rw [hde]
    show VIS = List.range listlen
    rw [e2, Nat.sub_zero, List.range_eq_range']

theorem c8_destroy_visits_all_witness :
    2 < U32 ∧
    ((destroyLoop false 2 (fun _ => []) 2 0 0 [4096, 0]).2.2.2 = true ∧
    (arm_addrenv_destroy_region ⟨[4096, 0], fun _ => [], 0⟩ 2 0
      false).2.2 = List.range 2) :=
  ⟨by decide,
    c8_destroy_visits_all ⟨[4096, 0], fun _ => [], 0⟩ 2 0 false (by decide)⟩

/-- C6: destruction is idempotent per slot: after `destroy_region`, every
table-list slot below `listlen` holds the null marker; running
`destroy_region` on a table list whose first `listlen` slots are all null
is a no-op (it produces no events at all — so no page frees, no critical
sections, and it cannot fault — and leaves the list unchanged); in
particular a second `destroy_region` immediately after a first performs
no page frees. -/
theorem c6_destroy_idempotent (st : St) (listlen vaddr vaddr2 : Nat)
    (keep keep2 : Bool) (hll : listlen < U32) :
    (∀ m, m < listlen →
      (arm_addrenv_destroy_region st listlen vaddr keep).1.list.getD m 0 =
        0) ∧
    (∀ st2 : St, (∀ m, m < listlen → st2.list.getD m 0 = 0) →
      (arm_addrenv_destroy_region st2 listlen vaddr2 keep2).2.1 = [] ∧
      (arm_addrenv_destroy_region st2 listlen vaddr2 keep2).1.list =
        st2.list) ∧
    (arm_addrenv_destroy_region
      ((arm_addrenv_destroy_region st listlen vaddr keep).1)
      listlen vaddr2 keep2).2.1 = [] := by
  have h1 : ∀ m, m < listlen →
      (arm_addrenv_destroy_region st listlen vaddr keep).1.list.getD m 0 =
        0 := by
    intro m hm
    unfold arm_addrenv_destroy_region
    rcases hde : destroyLoop keep listlen st.mem listlen 0 vaddr st.list
      with ⟨L, EVS, VIS, EX⟩
    obtain ⟨_, _, e3, _⟩ := destroyLoop_spec keep listlen st.mem hll
      listlen 0 vaddr st.list L EVS VIS EX (Nat.zero_le _) (by omega) hde
    show L.getD m 0 = 0
    rw [e3 m, if_pos ⟨Nat.zero_le _, hm⟩]
  have h2 : ∀ st2 : St, (∀ m, m < listlen → st2.list.getD m 0 = 0) →
      (arm_addrenv_destroy_region st2 listlen vaddr2 keep2).2.1 = [] ∧
      (arm_addrenv_destroy_region st2 listlen vaddr2 keep2).1.list =
        st2.list := by
    intro st2 hz
    obtain ⟨n1, n2⟩ := destroyLoop_null keep2 listlen st2.mem listlen 0
      vaddr2 st2.list hz
    exact ⟨n2, n1⟩
  exact ⟨h1, h2, (h2 _ h1).1⟩

theorem c6_destroy_idempotent_witness :
    1 < U32 ∧
    ((∀ m, m < 1 →
      (arm_addrenv_destroy_region ⟨[4096], fun _ => [8194], 0⟩ 1 0
        false).1.list.getD m 0 = 0) ∧
    (∀ st2 : St, (∀ m, m < 1 → st2.list.getD m 0 = 0) →
      (arm_addrenv_destroy_region st2 1 99 true).2.1 = [] ∧
      (arm_addrenv_destroy_region st2 1 99 true).1.list = st2.list) ∧
    (arm_addrenv_destroy_region
      ((arm_addrenv_destroy_region ⟨[4096], fun _ => [8194], 0⟩ 1 0
        false).1) 1 99 true).2.1 = []) :=
  ⟨by decide,
    c6_destroy_idempotent ⟨[4096], fun _ => [8194], 0⟩ 1 0 99 false true
      (by decide)⟩

theorem buildLoop_blocks (supply : Nat → Nat) (regionsize mmuflags : Nat) :
    ∀ r i v n st,
      MM_PGSIZE ∣ n →
      ∃ blocks : List (List Ev),
        (buildLoop supply regionsize mmuflags r i v n st).2.2 =
          blocks.flatten ∧ ∀ b ∈ blocks, BlockOk b := by
  intro r
  induction r with
  | zero =>
    intro i v n st _
    refine ⟨[], rfl, ?_⟩
    intro b hb
    exact absurd hb (List.not_mem_nil b)
  | succ r ih =>
    intro i v n st hdvd
    simp only [buildLoop]
    by_cases htp : supply st.acnt = 0
    · rw [if_pos htp]
      refine ⟨[[Ev.allocTable 0]], by simp, ?_⟩
      intro b hb
      rw [List.mem_singleton.1 hb]
      exact Or.inl rfl
    · rw [if_neg htp]
      rcases hR : fillLoop supply regionsize mmuflags (supply st.acnt)
          ENTRIES_PER_L2TABLE (List.replicate ENTRIES_PER_L2TABLE 0) v n
          (st.acnt + 1) with ⟨T, V, N, AC, fevs, fok⟩
      obtain ⟨s, _, _, f3, _, _, f6, _, _⟩ :=
        fillLoop_spec supply regionsize mmuflags (supply st.acnt)
          ENTRIES_PER_L2TABLE (List.replicate ENTRIES_PER_L2TABLE 0) v n
          (st.acnt + 1) T V N AC fevs fok hdvd hR
      cases fok with
      | false =>
        simp only [Bool.false_eq_true, if_false]
        refine ⟨[(Ev.allocTable (supply st.acnt) ::
          Ev.publish i (supply st.acnt) :: Ev.enterCS ::
          Ev.zeroTable (supply st.acnt) :: fevs) ++ [Ev.leaveCS]],
          by simp, ?_⟩
        intro b hb
        rw [List.mem_singleton.1 hb]
        exact Or.inr ⟨supply st.acnt, i, fevs, htp, f6, Or.inr rfl⟩
      | true =>
        simp only [eq_self_iff_true, if_true]
        obtain ⟨blocks, hb1, hb2⟩ := ih (i + 1) V N
          ⟨st.list.set i (supply st.acnt),
            Function.update st.mem (supply st.acnt) T, AC⟩
          (by rw [f3]; exact Dvd.dvd.add hdvd (dvd_mul_right _ _))
        refine ⟨((Ev.allocTable (supply st.acnt) ::
          Ev.publish i (supply st.acnt) :: Ev.enterCS ::
          Ev.zeroTable (supply st.acnt) :: fevs) ++
          [Ev.flush (supply st.acnt), Ev.leaveCS]) :: blocks, ?_, ?_⟩
        · rw [List.flatten_cons, ← hb1]
        · intro b hb
          rcases List.mem_cons.1 hb with h | h
          · rw [h]
            exact Or.inr ⟨supply st.acnt, i, fevs, htp, f6, Or.inl rfl⟩
          · exact hb2 b h

/-- C1 amended: for every call to `create_region` and every slot `i` it
fills, the table's physical address is written into `table_list[i]`
immediately after the leaf-table page is allocated — before the table is
zero-initialized, populated or flushed; the zero-fill, the entry writes
and (except when the call aborts with `-ENOMEM` in the middle of that
table, in which case the flush is skipped) the cache-line flush all
happen after that publication, inside the critical section, before it is
left.  Formally, the event trace decomposes into per-slot blocks of
exactly this shape. -/
theorem c1_publish_then_populate_flush (supply : Nat → Nat) (st : St)
    (listlen vaddr regionsize mmuflags : Nat) :
    ∃ blocks : List (List Ev),
      (arm_addrenv_create_region supply st listlen vaddr regionsize
        mmuflags).2.2 = blocks.flatten ∧
      ∀ b ∈ blocks, BlockOk b := by
  unfold arm_addrenv_create_region
  by_cases hc : MM_NPAGES regionsize >
      (listlen <<< (20 - MM_PGSHIFT)) % U32
  · rw [if_pos hc]
    refine ⟨[], rfl, ?_⟩
    intro b hb
    exact absurd hb (List.not_mem_nil b)
  · rw [if_neg hc]
    obtain ⟨blocks, h1, h2⟩ := buildLoop_blocks supply regionsize mmuflags
      (NLIST regionsize) 0 vaddr 0 st (dvd_zero _)
    exact ⟨blocks, h1, h2⟩

/-- C4 counterexample: with `listlen = 2^24` the capacity computation
`listlen << (20 - MM_PGSHIFT)` wraps to 0 in 32-bit `unsigned int`
arithmetic, so a one-page request that satisfies the capacity
precondition (`ceil(4096/4096) = 1` page against a capacity of
`2^24 * 256` pages) is rejected with `-E2BIG` instead of returning 1. -/
theorem c4_counterexample :
    MM_NPAGES 4096 ≤ 16777216 * ENTRIES_PER_L2TABLE ∧
    (arm_addrenv_create_region (fun n => 4096 * (n + 1))
      ⟨[], fun _ => [], 0⟩ 16777216 0 4096 2).1 = -(E2BIG : Int) := by
  constructor
  · decide
  · decide

/-- C4 (amended): provided `listlen < 2^24`, so that the 32-bit capacity
computation `listlen << (20 - MM_PGSHIFT)` cannot overflow, every
`create_region` call that satisfies the capacity precondition
`ceil(regionsize/pagesize) ≤ listlen * ENTRIES_PER_L2TABLE` and whose
page source never returns the null sentinel (within the call's
allocation range) returns exactly `ceil(regionsize/pagesize)`, grants
exactly that many data pages — never mapping beyond `regionsize` even if
table capacity remains — and that count equals
`min(regionsize, listlen * ENTRIES_PER_L2TABLE * pagesize)` rounded up
to page granularity. -/
theorem c4_success_maps_npages (supply : Nat → Nat) (st : St)
    (listlen vaddr regionsize mmuflags : Nat)
    (hl24 : listlen < 16777216)
    (hcap : MM_NPAGES regionsize ≤ listlen * ENTRIES_PER_L2TABLE)
    (hsup : ∀ k, k < st.acnt +
      NLIST regionsize * (ENTRIES_PER_L2TABLE + 1) + 1 → supply k ≠ 0)
    (hal : ∀ k, supply k % MM_PGSIZE = 0 ∧ supply k < U32)
    (hfl : mmuflags < MM_PGSIZE)
    (hinj : ∀ a b, supply a ≠ 0 → supply a = supply b → a = b)
    (hlen : NLIST regionsize ≤ st.list.length) :
    (arm_addrenv_create_region supply st listlen vaddr regionsize
      mmuflags).1 = (MM_NPAGES regionsize : Int) ∧
    (grantedData (arm_addrenv_create_region supply st listlen vaddr
      regionsize mmuflags).2.2).length = MM_NPAGES regionsize ∧
    MM_NPAGES regionsize =
      MM_NPAGES (min regionsize
        (listlen * ENTRIES_PER_L2TABLE * MM_PGSIZE)) := by
  have hshift : (listlen <<< (20 - MM_PGSHIFT)) % U32 =
      listlen * ENTRIES_PER_L2TABLE := by
    have h1 : listlen <<< (20 - MM_PGSHIFT) =
        listlen * ENTRIES_PER_L2TABLE := by
      rw [Nat.shiftLeft_eq]
      norm_num [MM_PGSHIFT, ENTRIES_PER_L2TABLE]
    rw [h1]
    apply Nat.mod_eq_of_lt
    simp only [ENTRIES_PER_L2TABLE, U32]
    omega
  simp only [arm_addrenv_create_region]
  rw [hshift, if_neg (by omega)]
  rcases hB : buildLoop supply regionsize mmuflags (NLIST regionsize) 0
      vaddr 0 st with ⟨OK, ST, EVS⟩
  obtain ⟨g, dpss, b1, b2, b3, b4, b5, b6, b7, b8, b9, b10, b11⟩ :=
    buildLoop_spec supply regionsize mmuflags hal hfl hinj
      (NLIST regionsize) 0 vaddr 0 st OK ST EVS (dvd_zero _) (by omega) hB
  have hOK : OK = true := by
    cases OK
    · exact absurd (b3 rfl) (hsup _ (by
        have := b11.2
        omega))
    · rfl
  subst hOK
  refine ⟨by simp, ?_, ?_⟩
  · have hc := b11.1 rfl
    rw [hc, Nat.zero_div, Nat.sub_zero]
    simp only [NLIST, ENTRIES_PER_L2TABLE]
    omega
  · have hle : regionsize ≤ listlen * ENTRIES_PER_L2TABLE * MM_PGSIZE := by
      simp only [MM_NPAGES, MM_PGSIZE, ENTRIES_PER_L2TABLE] at hcap ⊢
      omega
    rw [Nat.min_eq_left hle]

theorem c4_success_maps_npages_witness :
    (1 : Nat) < 16777216 ∧
    MM_NPAGES 8192 ≤ 1 * ENTRIES_PER_L2TABLE ∧
    (∀ k, k < (0 : Nat) + NLIST 8192 * (ENTRIES_PER_L2TABLE + 1) + 1 →
      (if k < 600 then 4096 * (k + 1) else 0) ≠ 0) ∧
    (∀ k, (if k < 600 then 4096 * (k + 1) else 0) % MM_PGSIZE = 0 ∧
      (if k < 600 then 4096 * (k + 1) else 0) < U32) ∧
    (2 : Nat) < MM_PGSIZE ∧
    (∀ a b, (if a < 600 then 4096 * (a + 1) else 0) ≠ 0 →
      (if a < 600 then 4096 * (a + 1) else 0) =
        (if b < 600 then 4096 * (b + 1) else 0) → a = b) ∧
    NLIST 8192 ≤ ([0] : List Nat).length ∧
    ((arm_addrenv_create_region (fun n => if n < 600 then 4096 * (n + 1)
        else 0) ⟨[0], fun _ => [], 0⟩ 1 0 8192 2).1 =
      (MM_NPAGES 8192 : Int) ∧
    (grantedData (arm_addrenv_create_region (fun n => if n < 600 then
        4096 * (n + 1) else 0) ⟨[0], fun _ => [], 0⟩ 1 0 8192
        2).2.2).length = MM_NPAGES 8192 ∧
    MM_NPAGES 8192 = MM_NPAGES (min 8192 (1 * ENTRIES_PER_L2TABLE *
      MM_PGSIZE))) := by
  have hsup : ∀ k, k < (0 : Nat) + NLIST 8192 *
      (ENTRIES_PER_L2TABLE + 1) + 1 →
      (if k < 600 then 4096 * (k + 1) else 0) ≠ 0 := by
    intro k hk
    have hk6 : k < 600 := by
      simp only [NLIST, MM_NPAGES, MM_PGSIZE, ENTRIES_PER_L2TABLE] at hk
      omega
    rw [if_pos hk6]
    exact Nat.mul_ne_zero (by decide) (Nat.succ_ne_zero k)
  have hal : ∀ k, (if k < 600 then 4096 * (k + 1) else 0) % MM_PGSIZE = 0 ∧
      (if k < 600 then 4096 * (k + 1) else 0) < U32 := by
    intro k
    by_cases h : k < 600
    · rw [if_pos h]
      constructor
      · simp [MM_PGSIZE, Nat.mul_mod_right]
      · simp only [U32]; omega
    · rw [if_neg h]
      exact ⟨by simp [MM_PGSIZE], by simp [U32]⟩
  have hinj : ∀ a b, (if a < 600 then 4096 * (a + 1) else 0) ≠ 0 →
      (if a < 600 then 4096 * (a + 1) else 0) =
        (if b < 600 then 4096 * (b + 1) else 0) → a = b := by
    intro a b ha hab
    by_cases h1 : a < 600
    · by_cases h2 : b < 600
      · rw [if_pos h1, if_pos h2] at hab; omega
      · rw [if_pos h1, if_neg h2] at hab; omega
    · rw [if_neg h1] at ha; exact absurd rfl ha
  exact ⟨by decide, by decide, hsup, hal, by decide, hinj, by decide,
    c4_success_maps_npages (fun n => if n < 600 then 4096 * (n + 1) else 0)
      ⟨[0], fun _ => [], 0⟩ 1 0 8192 2 (by decide) (by decide) hsup hal
      (by decide) hinj (by decide)⟩

theorem flatten_singleton_map (g : Nat → Nat) (l : List Nat) :
    (l.map (fun x => [g x])).flatten = l.map g := by
  induction l with
  | nil => rfl
  | cons a t ih => simp [ih]

theorem map_getD_range' (xs : List Nat) :
    (List.range' 0 xs.length).map (fun m => xs.getD m 0) = xs := by
  apply List.ext_getElem
  · simp
  · intro i h1 h2
    simp only [List.getElem_map, List.getElem_range']
    rw [List.getD_eq_getElem?_getD, List.getElem?_eq_getElem
      (by simpa using h2)]
    simp

theorem zip_cons_flatten_perm :
    ∀ (tps : List Nat) (dpss : List (List Nat)),
      tps.length = dpss.length →
      List.Perm ((List.zipWith (fun p d => p :: d) tps dpss).flatten)
        (tps ++ dpss.flatten) := by
  intro tps
  induction tps with
  | nil =>
    intro dpss h
    cases dpss with
    | nil => simp
    | cons d ds => simp at h
  | cons p tps ih =>
    intro dpss h
    cases dpss with
    | nil => simp at h
    | cons d ds =>
      simp only [List.zipWith_cons_cons, List.flatten_cons,
        List.cons_append]
      apply List.Perm.cons p
      have hmid : List.Perm (d ++ (tps ++ ds.flatten))
          (tps ++ (d ++ ds.flatten)) := by
        rw [← List.append_assoc, ← List.append_assoc]
        exact List.Perm.append_right ds.flatten List.perm_append_comm
      exact (List.Perm.append_left d (ih ds (by simpa using h))).trans hmid

theorem perblock_perm :
    ∀ (tps : List Nat) (dpss : List (List Nat)) (G : Nat → List Nat)
      (w : Nat),
      tps.length = dpss.length →
      (∀ m, m < tps.length →
        List.Perm (G (w + m)) (dpss.getD m [] ++ [tps.getD m 0])) →
      List.Perm (((List.range' w tps.length).map G).flatten)
        (dpss.flatten ++ tps) := by
  intro tps
  induction tps with
  | nil =>
    intro dpss G w h _
    cases dpss with
    | nil => simp
    | cons d ds => simp at h
  | cons p tps ih =>
    intro dpss G w h hG
    cases dpss with
    | nil => simp at h
    | cons d ds =>
      simp only [List.length_cons, List.range'_succ, List.map_cons,
        List.flatten_cons]
      have hG0 : List.Perm (G w) (d ++ [p]) := by
        have := hG 0 (by simp)
        simpa using this
      have hrec : List.Perm (((List.range' (w + 1) tps.length).map
          G).flatten) (ds.flatten ++ tps) := by
        apply ih ds G (w + 1) (by simpa using h)
        intro m hm
        have := hG (m + 1) (by simpa using Nat.succ_lt_succ hm)
        rw [show w + 1 + m = w + (m + 1) by omega]
        simpa using this
      have step1 : List.Perm (G w ++ ((List.range' (w + 1)
          tps.length).map G).flatten) ((d ++ [p]) ++ (ds.flatten ++ tps)) :=
        List.Perm.append hG0 hrec
      have step2 : List.Perm ((d ++ [p]) ++ (ds.flatten ++ tps))
          (d ++ (ds.flatten ++ (p :: tps))) := by
        rw [List.append_assoc]
        exact List.Perm.append_left d
          (by simpa using (@List.perm_middle Nat p ds.flatten tps).symm)
      rw [List.append_assoc]
      exact step1.trans step2

/-- C5: after a successful `create_region`, running `destroy_region` on
the same table list with `keep_pages = true` frees exactly the leaf-table
pages — one `mm_pgfree` per filled slot, in slot order — frees zero
mapped data pages, and resets every table-list slot below `listlen` to
null. -/
theorem c5_keep_pages_teardown (supply : Nat → Nat) (st : St)
    (listlen vaddr vaddr2 regionsize mmuflags : Nat)
    (hl24 : listlen < 16777216)
    (hlen : listlen ≤ st.list.length)
    (hcap : MM_NPAGES regionsize ≤ listlen * ENTRIES_PER_L2TABLE)
    (hnull : ∀ m, m < listlen → st.list.getD m 0 = 0)
    (hsup : ∀ k, k < st.acnt +
      NLIST regionsize * (ENTRIES_PER_L2TABLE + 1) + 1 → supply k ≠ 0)
    (hal : ∀ k, supply k % MM_PGSIZE = 0 ∧ supply k < U32)
    (hfl : mmuflags < MM_PGSIZE)
    (hinj : ∀ a b, supply a ≠ 0 → supply a = supply b → a = b) :
    freedPages (arm_addrenv_destroy_region
      (arm_addrenv_create_region supply st listlen vaddr regionsize
        mmuflags).2.1 listlen vaddr2 true).2.1 =
      grantedTables (arm_addrenv_create_region supply st listlen vaddr
        regionsize mmuflags).2.2 ∧
    (∀ q, q ∈ grantedData (arm_addrenv_create_region supply st listlen
        vaddr regionsize mmuflags).2.2 →
      q ∉ freedPages (arm_addrenv_destroy_region
        (arm_addrenv_create_region supply st listlen vaddr regionsize
          mmuflags).2.1 listlen vaddr2 true).2.1) ∧
    (∀ m, m < listlen → (arm_addrenv_destroy_region
      (arm_addrenv_create_region supply st listlen vaddr regionsize
        mmuflags).2.1 listlen vaddr2 true).1.list.getD m 0 = 0) := by
  have hshift : (listlen <<< (20 - MM_PGSHIFT)) % U32 =
      listlen * ENTRIES_PER_L2TABLE := by
    have h1 : listlen <<< (20 - MM_PGSHIFT) =
        listlen * ENTRIES_PER_L2TABLE := by
      rw [Nat.shiftLeft_eq]
      norm_num [MM_PGSHIFT, ENTRIES_PER_L2TABLE]
    rw [h1]
    apply Nat.mod_eq_of_lt
    simp only [ENTRIES_PER_L2TABLE, U32]
    omega
  have hNL : NLIST regionsize ≤ listlen := by
    simp only [NLIST, ENTRIES_PER_L2TABLE] at hcap ⊢
    omega
  simp only [arm_addrenv_create_region]
  rw [hshift, if_neg (by omega)]
  rcases hB : buildLoop supply regionsize mmuflags (NLIST regionsize) 0
      vaddr 0 st with ⟨OK, ST, EVS⟩
  obtain ⟨g, dpss, b1, b2, b3, b4, b5, b6, b7, b8, b9, b10, b11⟩ :=
    buildLoop_spec supply regionsize mmuflags hal hfl hinj
      (NLIST regionsize) 0 vaddr 0 st OK ST EVS (dvd_zero _)
      (by omega) hB
  have hOK : OK = true := by
    cases OK
    · exact absurd (b3 rfl) (hsup _ (by have := b11.2; omega))
    · rfl
  subst hOK
  have hproj1 : ((if true = true then (MM_NPAGES regionsize : Int)
      else -(ENOMEM : Int)), ST, EVS).2.1 = ST := rfl
  have hproj2 : ((if true = true then (MM_NPAGES regionsize : Int)
      else -(ENOMEM : Int)), ST, EVS).2.2 = EVS := rfl
  rw [hproj1, hproj2]
  have hfr := (buildLoop_frame supply regionsize mmuflags
    (NLIST regionsize) 0 vaddr 0 st).1
  rw [hB] at hfr
  have hfr' : (grantedTables EVS).length ≤ NLIST regionsize := by
    simpa using hfr
  have htle : (grantedTables EVS).length ≤ listlen := by omega
  have hll32 : listlen < U32 := by simp only [U32]; omega
  simp only [arm_addrenv_destroy_region]
  rcases hD : destroyLoop true listlen ST.mem listlen 0 vaddr2 ST.list
    with ⟨L, DEVS, VIS, EX⟩
  obtain ⟨_, _, d3, d4⟩ := destroyLoop_spec true listlen ST.mem hll32
    listlen 0 vaddr2 ST.list L DEVS VIS EX (Nat.zero_le _) (by omega) hD
  have htne : ∀ m, m < (grantedTables EVS).length →
      (grantedTables EVS).getD m 0 ≠ 0 := by
    intro m hm
    have hmem : (grantedTables EVS).getD m 0 ∈ grantedTables EVS := by
      rw [List.getD_eq_getElem?_getD, List.getElem?_eq_getElem hm]
      exact List.getElem_mem hm
    exact (b10 _ hmem).1
  have hslot : ∀ m, m < listlen → ST.list.getD m 0 =
      if m < (grantedTables EVS).length then
        (grantedTables EVS).getD m 0 else 0 := by
    intro m hm
    rw [b7 m]
    by_cases hmt : m < (grantedTables EVS).length
    · rw [if_pos ⟨Nat.zero_le _, by omega⟩, if_pos hmt, Nat.sub_zero]
    · rw [if_neg (by omega), if_neg hmt]
      exact hnull m hm
  have hfree : freedPages DEVS = grantedTables EVS := by
    rw [d4, Nat.sub_zero]
    have hmapeq : (List.range' 0 listlen).map (fun m =>
        if ST.list.getD m 0 = 0 then []
        else (if true = true then []
          else scanFrees (ST.mem (ST.list.getD m 0))) ++
          [ST.list.getD m 0]) =
        (List.range' 0 listlen).map (fun m =>
          if m < (grantedTables EVS).length then
            [(grantedTables EVS).getD m 0] else []) := by
      apply List.map_congr_left
      intro m hm
      have hm' : m < listlen := by
        have := List.mem_range'_1.1 hm
        omega
      rw [hslot m hm']
      by_cases hmt : m < (grantedTables EVS).length
      · rw [if_pos hmt, if_neg (htne m hmt), if_pos hmt]
        simp
      · rw [if_neg hmt, if_neg hmt, if_pos rfl]
    rw [hmapeq]
    have hsplit : List.range' 0 listlen =
        List.range' 0 (grantedTables EVS).length ++
        List.range' (0 + (grantedTables EVS).length)
          (listlen - (grantedTables EVS).length) := by
      rw [List.range'_append_1]
      congr 1
      omega
    rw [hsplit, List.map_append, List.flatten_append]
    have hpart1 : (List.range' 0 (grantedTables EVS).length).map (fun m =>
        if m < (grantedTables EVS).length then
          [(grantedTables EVS).getD m 0] else []) =
        (List.range' 0 (grantedTables EVS).length).map (fun m =>
          [(grantedTables EVS).getD m 0]) := by
      apply List.map_congr_left
      intro m hm
      have := List.mem_range'_1.1 hm
      rw [if_pos (by omega)]
    have hpart2 : ((List.range' (0 + (grantedTables EVS).length)
        (listlen - (grantedTables EVS).length)).map (fun m =>
        if m < (grantedTables EVS).length then
          [(grantedTables EVS).getD m 0] else [])).flatten = [] := by
      rw [List.flatten_eq_nil_iff]
      intro l hl
      obtain ⟨m, hm1, hm2⟩ := List.mem_map.1 hl
      have := List.mem_range'_1.1 hm1
      rw [if_neg (by omega)] at hm2
      exact hm2.symm
    rw [hpart1, hpart2, flatten_singleton_map, map_getD_range',
      List.append_nil]
  refine ⟨hfree, ?_, ?_⟩
  · intro q hq hqf
    rw [hfree] at hqf
    have hperm : List.Perm (allGrants EVS)
        (grantedTables EVS ++ dpss.flatten) := by
      rw [b6]
      exact zip_cons_flatten_perm _ dpss b4
    have hag : (allGrants EVS).Nodup := by
      rw [b1]
      apply List.Nodup.map_on ?_ (List.nodup_range' _ _)
      intro x hx y hy hxy
      have hx' := List.mem_range'_1.1 hx
      have hy' := List.mem_range'_1.1 hy
      have hxne : supply x ≠ 0 := by
        have h2 := b2 (x - st.acnt) (by omega)
        rw [show st.acnt + (x - st.acnt) = x by omega] at h2
        exact h2
      exact hinj x y hxne hxy
    have hnd : (grantedTables EVS ++ dpss.flatten).Nodup :=
      hperm.nodup hag
    have hdisj := List.disjoint_of_nodup_append hnd
    rw [b5] at hq
    exact hdisj hqf hq
  · intro m hm
    show L.getD m 0 = 0
    rw [d3 m, if_pos ⟨Nat.zero_le _, hm⟩]

theorem c5_keep_pages_teardown_witness :
    (1 : Nat) < 16777216 ∧
    (1 : Nat) ≤ ([0] : List Nat).length ∧
    MM_NPAGES 8192 ≤ 1 * ENTRIES_PER_L2TABLE ∧
    (∀ m, m < 1 → ([0] : List Nat).getD m 0 = 0) ∧
    (∀ k, k < (0 : Nat) + NLIST 8192 * (ENTRIES_PER_L2TABLE + 1) + 1 →
      (if k < 600 then 4096 * (k + 1) else 0) ≠ 0) ∧
    (∀ k, (if k < 600 then 4096 * (k + 1) else 0) % MM_PGSIZE = 0 ∧
      (if k < 600 then 4096 * (k + 1) else 0) < U32) ∧
    (2 : Nat) < MM_PGSIZE ∧
    (∀ a b, (if a < 600 then 4096 * (a + 1) else 0) ≠ 0 →
      (if a < 600 then 4096 * (a + 1) else 0) =
        (if b < 600 then 4096 * (b + 1) else 0) → a = b) ∧
    (freedPages (arm_addrenv_destroy_region
      (arm_addrenv_create_region (fun n => if n < 600 then 4096 * (n + 1)
        else 0) ⟨[0], fun _ => [], 0⟩ 1 0 8192 2).2.1 1 7 true).2.1 =
      grantedTables (arm_addrenv_create_region (fun n => if n < 600 then
        4096 * (n + 1) else 0) ⟨[0], fun _ => [], 0⟩ 1 0 8192 2).2.2 ∧
    (∀ q, q ∈ grantedData (arm_addrenv_create_region (fun n => if n < 600
        then 4096 * (n + 1) else 0) ⟨[0], fun _ => [], 0⟩ 1 0 8192
        2).2.2 →
      q ∉ freedPages (arm_addrenv_destroy_region
        (arm_addrenv_create_region (fun n => if n < 600 then
          4096 * (n + 1) else 0) ⟨[0], fun _ => [], 0⟩ 1 0 8192 2).2.1
        1 7 true).2.1) ∧
    (∀ m, m < 1 → (arm_addrenv_destroy_region
      (arm_addrenv_create_region (fun n => if n < 600 then 4096 * (n + 1)
        else 0) ⟨[0], fun _ => [], 0⟩ 1 0 8192 2).2.1
      1 7 true).1.list.getD m 0 = 0)) := by
  have hsup : ∀ k, k < (0 : Nat) + NLIST 8192 *
      (ENTRIES_PER_L2TABLE + 1) + 1 →
      (if k < 600 then 4096 * (k + 1) else 0) ≠ 0 := by
    intro k hk
    have hk6 : k < 600 := by
      simp only [NLIST, MM_NPAGES, MM_PGSIZE, ENTRIES_PER_L2TABLE] at hk
      omega
    rw [if_pos hk6]
    exact Nat.mul_ne_zero (by decide) (Nat.succ_ne_zero k)
  have hal : ∀ k, (if k < 600 then 4096 * (k + 1) else 0) % MM_PGSIZE = 0 ∧
      (if k < 600 then 4096 * (k + 1) else 0) < U32 := by
    intro k
    by_cases h : k < 600
    · rw [if_pos h]
      constructor
      · simp [MM_PGSIZE, Nat.mul_mod_right]
      · simp only [U32]; omega
    · rw [if_neg h]
      exact ⟨by simp [MM_PGSIZE], by simp [U32]⟩
  have hinj : ∀ a b, (if a < 600 then 4096 * (a + 1) else 0) ≠ 0 →
      (if a < 600 then 4096 * (a + 1) else 0) =
        (if b < 600 then 4096 * (b + 1) else 0) → a = b := by
    intro a b ha hab
    by_cases h1 : a < 600
    · by_cases h2 : b < 600
      · rw [if_pos h1, if_pos h2] at hab; omega
      · rw [if_pos h1, if_neg h2] at hab; omega
    · rw [if_neg h1] at ha; exact absurd rfl ha
  exact ⟨by decide, by decide, by decide, by decide, hsup, hal, by decide,
    hinj,
    c5_keep_pages_teardown (fun n => if n < 600 then 4096 * (n + 1) else 0)
      ⟨[0], fun _ => [], 0⟩ 1 0 7 8192 2 (by decide) (by decide)
      (by decide) (by decide) hsup hal (by decide) hinj⟩

/-- C3: whenever `create_region` aborts with `-ENOMEM` — i.e. the page
source granted some number `k` of data pages (plus some leaf tables) and
then returned the null sentinel — a subsequent `destroy_region` on the
same table list with `keep_pages = false` frees exactly those `k` granted
data pages plus every leaf-table page allocated so far (as a multiset),
and leaves every table-list slot below `listlen` null. -/
theorem c3_enomem_destroy_frees_all (supply : Nat → Nat) (st : St)
    (listlen vaddr vaddr2 regionsize mmuflags : Nat)
    (hl24 : listlen < 16777216)
    (hlen : listlen ≤ st.list.length)
    (hnull : ∀ m, m < listlen → st.list.getD m 0 = 0)
    (hal : ∀ k, supply k % MM_PGSIZE = 0 ∧ supply k < U32)
    (hfl : mmuflags < MM_PGSIZE)
    (hinj : ∀ a b, supply a ≠ 0 → supply a = supply b → a = b)
    (hres : (arm_addrenv_create_region supply st listlen vaddr regionsize
      mmuflags).1 = -(ENOMEM : Int)) :
    List.Perm (freedPages (arm_addrenv_destroy_region
      (arm_addrenv_create_region supply st listlen vaddr regionsize
        mmuflags).2.1 listlen vaddr2 false).2.1)
      (grantedData (arm_addrenv_create_region supply st listlen vaddr
        regionsize mmuflags).2.2 ++
       grantedTables (arm_addrenv_create_region supply st listlen vaddr
        regionsize mmuflags).2.2) ∧
    (∀ m, m < listlen → (arm_addrenv_destroy_region
      (arm_addrenv_create_region supply st listlen vaddr regionsize
        mmuflags).2.1 listlen vaddr2 false).1.list.getD m 0 = 0) := by
  have hshift : (listlen <<< (20 - MM_PGSHIFT)) % U32 =
      listlen * ENTRIES_PER_L2TABLE := by
    have h1 : listlen <<< (20 - MM_PGSHIFT) =
        listlen * ENTRIES_PER_L2TABLE := by
      rw [Nat.shiftLeft_eq]
      norm_num [MM_PGSHIFT, ENTRIES_PER_L2TABLE]
    rw [h1]
    apply Nat.mod_eq_of_lt
    simp only [ENTRIES_PER_L2TABLE, U32]
    omega
  by_cases hc : MM_NPAGES regionsize >
      (listlen <<< (20 - MM_PGSHIFT)) % U32
  · exfalso
    simp only [arm_addrenv_create_region] at hres
    rw [if_pos hc] at hres
    have hres' : -(E2BIG : Int) = -(ENOMEM : Int) := hres
    exact absurd hres' (by decide)
  · have hcap : MM_NPAGES regionsize ≤ listlen * ENTRIES_PER_L2TABLE := by
      rw [hshift] at hc
      omega
    have hNL : NLIST regionsize ≤ listlen := by
      simp only [NLIST, ENTRIES_PER_L2TABLE] at hcap ⊢
      omega
    simp only [arm_addrenv_create_region] at hres ⊢
    rw [if_neg hc] at hres ⊢
    rcases hB : buildLoop supply regionsize mmuflags (NLIST regionsize) 0
        vaddr 0 st with ⟨OK, ST, EVS⟩
    rw [hB] at hres
    obtain ⟨g, dpss, b1, b2, b3, b4, b5, b6, b7, b8, b9, b10, b11⟩ :=
      buildLoop_spec supply regionsize mmuflags hal hfl hinj
        (NLIST regionsize) 0 vaddr 0 st OK ST EVS (dvd_zero _)
        (by omega) hB
    have hOK : OK = false := by
      cases OK
      · rfl
      · exfalso
        simp only [if_true, eq_self_iff_true] at hres
        have : (MM_NPAGES regionsize : Int) = -(ENOMEM : Int) := hres
        simp only [ENOMEM] at this
        omega
    subst hOK
    have hproj1 : ((if false = true then (MM_NPAGES regionsize : Int)
        else -(ENOMEM : Int)), ST, EVS).2.1 = ST := rfl
    have hproj2 : ((if false = true then (MM_NPAGES regionsize : Int)
        else -(ENOMEM : Int)), ST, EVS).2.2 = EVS := rfl
    rw [hproj1, hproj2]
    have hfr := (buildLoop_frame supply regionsize mmuflags
      (NLIST regionsize) 0 vaddr 0 st).1
    rw [hB] at hfr
    have hfr' : (grantedTables EVS).length ≤ NLIST regionsize := by
      simpa using hfr
    have htle : (grantedTables EVS).length ≤ listlen := by omega
    have hll32 : listlen < U32 := by simp only [U32]; omega
    simp only [arm_addrenv_destroy_region]
    rcases hD : destroyLoop false listlen ST.mem listlen 0 vaddr2 ST.list
      with ⟨L, DEVS, VIS, EX⟩
    obtain ⟨_, _, d3, d4⟩ := destroyLoop_spec false listlen ST.mem hll32
      listlen 0 vaddr2 ST.list L DEVS VIS EX (Nat.zero_le _)
      (by omega) hD
    have htne : ∀ m, m < (grantedTables EVS).length →
        (grantedTables EVS).getD m 0 ≠ 0 := by
      intro m hm
      have hmem : (grantedTables EVS).getD m 0 ∈ grantedTables EVS := by
        rw [List.getD_eq_getElem?_getD, List.getElem?_eq_getElem hm]
        exact List.getElem_mem hm
      exact (b10 _ hmem).1
    have hslot : ∀ m, m < listlen → ST.list.getD m 0 =
        if m < (grantedTables EVS).length then
          (grantedTables EVS).getD m 0 else 0 := by
      intro m hm
      rw [b7 m]
      by_cases hmt : m < (grantedTables EVS).length
      · rw [if_pos ⟨Nat.zero_le _, by omega⟩, if_pos hmt, Nat.sub_zero]
      · rw [if_neg (by omega), if_neg hmt]
        exact hnull m hm
    constructor
    · rw [d4, Nat.sub_zero]
      have hmapeq : (List.range' 0 listlen).map (fun m =>
          if ST.list.getD m 0 = 0 then []
          else (if false = true then []
            else scanFrees (ST.mem (ST.list.getD m 0))) ++
            [ST.list.getD m 0]) =
          (List.range' 0 listlen).map (fun m =>
            if m < (grantedTables EVS).length then
              scanFrees (ST.mem ((grantedTables EVS).getD m 0)) ++
                [(grantedTables EVS).getD m 0] else []) := by
        apply List.map_congr_left
        intro m hm
        have hm' : m < listlen := by
          have := List.mem_range'_1.1 hm
          omega
        rw [hslot m hm']
        by_cases hmt : m < (grantedTables EVS).length
        · rw [if_pos hmt, if_neg (htne m hmt), if_pos hmt]
          simp
        · rw [if_neg hmt, if_neg hmt, if_pos rfl]
      rw [hmapeq]
      have hsplit : List.range' 0 listlen =
          List.range' 0 (grantedTables EVS).length ++
          List.range' (0 + (grantedTables EVS).length)
            (listlen - (grantedTables EVS).length) := by
        rw [List.range'_append_1]
        congr 1
        omega
      rw [hsplit, List.map_append, List.flatten_append]
      have hpart2 : ((List.range' (0 + (grantedTables EVS).length)
          (listlen - (grantedTables EVS).length)).map (fun m =>
          if m < (grantedTables EVS).length then
            scanFrees (ST.mem ((grantedTables EVS).getD m 0)) ++
              [(grantedTables EVS).getD m 0] else [])).flatten = [] := by
        rw [List.flatten_eq_nil_iff]
        intro l hl
        obtain ⟨m, hm1, hm2⟩ := List.mem_map.1 hl
        have := List.mem_range'_1.1 hm1
        rw [if_neg (by omega)] at hm2
        exact hm2.symm
      rw [hpart2, List.append_nil]
      have hperm := perblock_perm (grantedTables EVS) dpss (fun m =>
        if m < (grantedTables EVS).length then
          scanFrees (ST.mem ((grantedTables EVS).getD m 0)) ++
            [(grantedTables EVS).getD m 0] else []) 0 b4 ?_
      · rw [b5]
        exact hperm
      · intro m hm
        simp only [Nat.zero_add]
        rw [if_pos hm]
        exact List.Perm.append_right _ (b8 m hm)
    · intro m hm
      show L.getD m 0 = 0
      rw [d3 m, if_pos ⟨Nat.zero_le _, hm⟩]

theorem c3_enomem_destroy_frees_all_witness :
    (1 : Nat) < 16777216 ∧
    (1 : Nat) ≤ ([0] : List Nat).length ∧
    (∀ m, m < 1 → ([0] : List Nat).getD m 0 = 0) ∧
    (∀ k, (if k < 2 then 4096 * (k + 1) else 0) % MM_PGSIZE = 0 ∧
      (if k < 2 then 4096 * (k + 1) else 0) < U32) ∧
    (2 : Nat) < MM_PGSIZE ∧
    (∀ a b, (if a < 2 then 4096 * (a + 1) else 0) ≠ 0 →
      (if a < 2 then 4096 * (a + 1) else 0) =
        (if b < 2 then 4096 * (b + 1) else 0) → a = b) ∧
    (arm_addrenv_create_region (fun n => if n < 2 then 4096 * (n + 1)
      else 0) ⟨[0], fun _ => [], 0⟩ 1 0 8192 2).1 = -(ENOMEM : Int) ∧
    (List.Perm (freedPages (arm_addrenv_destroy_region
      (arm_addrenv_create_region (fun n => if n < 2 then 4096 * (n + 1)
        else 0) ⟨[0], fun _ => [], 0⟩ 1 0 8192 2).2.1 1 5 false).2.1)
      (grantedData (arm_addrenv_create_region (fun n => if n < 2 then
        4096 * (n + 1) else 0) ⟨[0], fun _ => [], 0⟩ 1 0 8192 2).2.2 ++
       grantedTables (arm_addrenv_create_region (fun n => if n < 2 then
        4096 * (n + 1) else 0) ⟨[0], fun _ => [], 0⟩ 1 0 8192 2).2.2) ∧
    (∀ m, m < 1 → (arm_addrenv_destroy_region
      (arm_addrenv_create_region (fun n => if n < 2 then 4096 * (n + 1)
        else 0) ⟨[0], fun _ => [], 0⟩ 1 0 8192 2).2.1
      1 5 false).1.list.getD m 0 = 0)) := by
  have hal : ∀ k, (if k < 2 then 4096 * (k + 1) else 0) % MM_PGSIZE = 0 ∧
      (if k < 2 then 4096 * (k + 1) else 0) < U32 := by
    intro k
    by_cases h : k < 2
    · rw [if_pos h]
      constructor
      · simp [MM_PGSIZE, Nat.mul_mod_right]
      · simp only [U32]; omega
    · rw [if_neg h]
      exact ⟨by simp [MM_PGSIZE], by simp [U32]⟩
  have hinj : ∀ a b, (if a < 2 then 4096 * (a + 1) else 0) ≠ 0 →
      (if a < 2 then 4096 * (a + 1) else 0) =
        (if b < 2 then 4096 * (b + 1) else 0) → a = b := by
    intro a b ha hab
    by_cases h1 : a < 2
    · by_cases h2 : b < 2
      · rw [if_pos h1, if_pos h2] at hab; omega
      · rw [if_pos h1, if_neg h2] at hab; omega
    · rw [if_neg h1] at ha; exact absurd rfl ha
  exact ⟨by decide, by decide, by decide, hal, by decide, hinj, by decide,
    c3_enomem_destroy_frees_all (fun n => if n < 2 then 4096 * (n + 1)
      else 0) ⟨[0], fun _ => [], 0⟩ 1 0 5 8192 2 (by decide) (by decide)
      (by decide) hal (by decide) hinj (by decide)⟩
